import Mathlib

/-!
Shallow embedding of the conversation repository
(`src/backend/app/repositories/conversation.py`) of the
bedrock-claude-chat backend, together with theorems checking the
natural-language specification against it.

The DynamoDB table is modelled as a list of items; each item carries the
partition key `PK`, the sort key `SK` and a list of named attributes.
JSON serialization of the message map (`json.dumps` / `json.loads`) is
modelled structurally: the serialized string is represented by the
parsed association list it denotes, so that `loads (dumps m) = m`.
Python `float` / `Decimal` timestamps are modelled as rationals, with
the `decimal(...)` / `float(...)` conversions the identity.
Untyped Python runtime exceptions (`KeyError`, `IndexError`,
`popitem` on an empty dict) are modelled by the `RepoError.runtimeError`
constructor, `botocore.exceptions.ClientError` by `RepoError.clientError`
and the repository's own `RecordNotFoundError` by
`RepoError.recordNotFound`.
-/

/-- Message content, mirroring `ContentModel` (`content_type` plus body). -/
structure ContentModel where
  content_type : String
  body : String
deriving DecidableEq, Repr

/-- A single message of a conversation, mirroring `MessageModel`. -/
structure MessageModel where
  role : String
  content : ContentModel
  model : String
  children : List String
  parent : Option String
  create_time : Rat
deriving DecidableEq, Repr

/-- A full conversation, mirroring `ConversationModel`.  The Python
`message_map` dict is modelled as an insertion-ordered association list. -/
structure ConversationModel where
  id : String
  title : String
  create_time : Rat
  message_map : List (String × MessageModel)
  last_message_id : String
  bot_id : Option String
deriving DecidableEq, Repr

/-- A conversation summary, mirroring `ConversationMeta`. -/
structure ConversationMeta where
  id : String
  create_time : Rat
  title : String
  model : String
  bot_id : Option String
deriving DecidableEq, Repr

/-- A DynamoDB attribute value as used by this repository: a string, a
number, the null value, or a serialized message map (a JSON string,
represented by its parsed content). -/
inductive AttrVal where
  | S (s : String)
  | N (q : Rat)
  | NullV
  | M (m : List (String × MessageModel))
deriving DecidableEq, Repr

/-- One stored item of the single table. -/
structure Item where
  PK : String
  SK : String
  attrs : List (String × AttrVal)
deriving DecidableEq, Repr

/-- The single logical DynamoDB table. -/
structure DB where
  items : List Item
deriving DecidableEq, Repr

/-- A `botocore` client error, identified by its error code. -/
structure ClientError where
  code : String
  message : String
deriving DecidableEq, Repr

/-- Errors surfaced by the repository layer. -/
inductive RepoError where
  | recordNotFound (msg : String)
  | clientError (e : ClientError)
  | runtimeError (msg : String)
deriving DecidableEq, Repr

/-- The error code of a failed DynamoDB conditional write. -/
def ConditionalCheckFailed : String := "ConditionalCheckFailedException"

/-- Look up an attribute by name in an attribute list. -/
def getA : List (String × AttrVal) → String → Option AttrVal
  | [], _ => none
  | (k, v) :: rest, n => if k = n then some v else getA rest n

/-- Set an attribute by name in an attribute list (replace or append),
mirroring an `UpdateExpression` of the form `set Name = :value`. -/
def setA : List (String × AttrVal) → String → AttrVal → List (String × AttrVal)
  | [], n, v => [(n, v)]
  | (k, w) :: rest, n, v =>
      if k = n then (n, v) :: rest else (k, w) :: setA rest n v

/-- Update one attribute of an item. -/
def setAttr (it : Item) (n : String) (v : AttrVal) : Item :=
  { it with attrs := setA it.attrs n v }

/-! ## Key codec

Modelled from the spec: the key codec lives in
`app/repositories/common.py`, which is not part of the given sources.
Following §4.1 of the spec, `composeConversationKey(userId, conversationId)`
produces `{userId}#CONV#{conversationId}`, `composeBotKey` the same with a
`#BOT#` tag, and decomposition strips the leading `{userId}#CONV#` part
(everything up to and including the first occurrence of the `#CONV#` tag),
reporting a decoding failure (`none`) when the tag is absent. -/

/-- Return the suffix after the first occurrence of `tag`, if any. -/
def findTagSuffix (tag : List Char) : List Char → Option (List Char)
  | [] => if tag = [] then some [] else none
  | c :: rest =>
      if tag.isPrefixOf (c :: rest) then some ((c :: rest).drop tag.length)
      else (findTagSuffix tag rest)

/-- The conversation tag of composed sort keys. -/
def convTag : List Char := "#CONV#".data

/-- Modelled from the spec: `composeConversationKey(userId, conversationId)`
of the (missing) key codec module `app/repositories/common.py`. -/
def _compose_conv_id (user_id conversation_id : String) : String :=
  user_id ++ "#CONV#" ++ conversation_id

/-- Modelled from the spec: `composeBotKey(userId, botId)` of the (missing)
key codec module `app/repositories/common.py`. -/
def _compose_bot_id (user_id bot_id : String) : String :=
  user_id ++ "#BOT#" ++ bot_id

/-- Modelled from the spec: `decomposeConversationKey(SK)` of the (missing)
key codec module `app/repositories/common.py`: strips the leading
`{userId}#CONV#` part, failing when the `#CONV#` tag does not occur. -/
def _decompose_conv_id (sk : String) : Option String :=
  (findTagSuffix convTag sk.data).map fun l => ⟨l⟩

/-! ## Table-client primitives -/

/-- Point lookup of an item by its full primary key. -/
def getItem (db : DB) (pk sk : String) : Option Item :=
  db.items.find? fun it => it.PK == pk && it.SK == sk

/-- Upsert of a full item (DynamoDB `Put`): replaces any item with the
same primary key. -/
def putItem (db : DB) (it : Item) : DB :=
  ⟨it :: db.items.filter fun j => !(j.PK == it.PK && j.SK == it.SK)⟩

/-- Remove the item with the given primary key (DynamoDB unconditional
`DeleteItem`). -/
def removeItem (db : DB) (pk sk : String) : DB :=
  ⟨db.items.filter fun j => !(j.PK == pk && j.SK == sk)⟩

/-- DynamoDB `UpdateItem` without a condition: updates the attribute on
the addressed item, creating the item when it does not exist yet. -/
def updateAttrAt (db : DB) (pk sk : String) (n : String) (v : AttrVal) : DB :=
  if (getItem db pk sk).isSome then
    ⟨db.items.map fun j => if j.PK == pk && j.SK == sk then setAttr j n v else j⟩
  else
    ⟨⟨pk, sk, [(n, v)]⟩ :: db.items⟩

/-- `prefixStr.isPrefixOf s` at the character level, modelling the
DynamoDB `begins_with` key condition. -/
def beginsWith (s pre : String) : Bool :=
  pre.data.isPrefixOf s.data

/-- The key-condition query of `find_conversation_by_user_id` and
`delete_conversation_by_user_id`: `Key("PK").eq(user_id) &
Key("SK").begins_with(f"{user_id}#CONV#")`. -/
def queryConvItems (db : DB) (user_id : String) : List Item :=
  db.items.filter fun it =>
    it.PK == user_id && beginsWith it.SK (user_id ++ "#CONV#")

/-- The `SKIndex` secondary-index query of `find_conversation_by_id`:
all items of the whole table whose sort key equals the given one. -/
def skIndexQuery (db : DB) (sk : String) : List Item :=
  db.items.filter fun it => it.SK == sk

/-- One element of a `transact_write_items` request, as built by
`store_conversation`: either a `Put` of a full item or an `Update`
setting one attribute at a key. -/
inductive TransactItem where
  | put (it : Item)
  | update (pk sk : String) (n : String) (v : AttrVal)
deriving DecidableEq, Repr

/-- Apply a single transaction element to the table. -/
def applyTransactItem (db : DB) : TransactItem → DB
  | .put it => putItem db it
  | .update pk sk n v => updateAttrAt db pk sk n v

/-- DynamoDB `transact_write_items`: all elements are applied atomically;
a rejected transaction (`reject = true`, standing for a condition
failure, capacity exhaustion or conflict) raises
`TransactionCanceledException` and leaves the table unchanged. -/
def transact_write_items (db : DB) (txs : List TransactItem) (reject : Bool) :
    DB × Except RepoError Unit :=
  if reject then
    (db, .error (.clientError ⟨"TransactionCanceledException", "Transaction cancelled"⟩))
  else
    (txs.foldl applyTransactItem db, .ok ())

/-! ## Repository operations -/

/-- The conversation item written by `store_conversation`
(attribute for attribute, in the order of the source). -/
def conv_item (user_id : String) (c : ConversationModel) : Item :=
  { PK := user_id
    SK := _compose_conv_id user_id c.id
    attrs := [("Title", .S c.title),
              ("CreateTime", .N c.create_time),
              ("MessageMap", .M c.message_map),
              ("LastMessageId", .S c.last_message_id),
              ("BotId", match c.bot_id with | some b => .S b | none => .NullV)] }

/-- The transaction built by `store_conversation`: the conversation `Put`
followed, when `bot_id` is set, by the `Update` with expression
`set LastBotUsed = :current_time` at the composed bot key. -/
def store_transact_items (user_id : String) (c : ConversationModel) (now : Rat) :
    List TransactItem :=
  [.put (conv_item user_id c)] ++
    (match c.bot_id with
      | some b => [.update user_id (_compose_bot_id user_id b) "LastBotUsed" (.N now)]
      | none => [])

/-- `store_conversation(user_id, conversation)`: a single
`transact_write_items` call over the items of `store_transact_items`.
`now` stands for `get_current_time()`; `reject` injects a transaction
rejection by the store. -/
def store_conversation (db : DB) (user_id : String) (c : ConversationModel)
    (now : Rat) (reject : Bool) : DB × Except RepoError Unit :=
  transact_write_items db (store_transact_items user_id c now) reject

/-- Deserialization of one stored item into a `ConversationModel`, as done
inline by `find_conversation_by_id`.  A missing or mistyped attribute and
a failing key decomposition raise untyped Python errors, modelled as
`runtimeError`. -/
def parseConversation (it : Item) : Except RepoError ConversationModel :=
  match _decompose_conv_id it.SK with
  | none => .error (.runtimeError "conversation key decomposition failed")
  | some cid =>
    match getA it.attrs "CreateTime" with
    | some (.N ct) =>
      match getA it.attrs "Title" with
      | some (.S ti) =>
        match getA it.attrs "MessageMap" with
        | some (.M mm) =>
          match getA it.attrs "LastMessageId" with
          | some (.S lmid) =>
            match getA it.attrs "BotId" with
            | some (.S b) => .ok ⟨cid, ti, ct, mm, lmid, some b⟩
            | some .NullV => .ok ⟨cid, ti, ct, mm, lmid, none⟩
            | _ => .error (.runtimeError "KeyError: BotId")
          | _ => .error (.runtimeError "KeyError: LastMessageId")
        | _ => .error (.runtimeError "KeyError: MessageMap")
      | _ => .error (.runtimeError "KeyError: Title")
    | _ => .error (.runtimeError "KeyError: CreateTime")

/-- `find_conversation_by_id(user_id, conversation_id)`: queries the
`SKIndex` for the composed key, raises `RecordNotFoundError` on zero
rows, otherwise deserializes the first row. -/
def find_conversation_by_id (db : DB) (user_id conversation_id : String) :
    Except RepoError ConversationModel :=
  match skIndexQuery db (_compose_conv_id user_id conversation_id) with
  | [] => .error (.recordNotFound ("No conversation found with id: " ++ conversation_id))
  | item :: _ => parseConversation item

/-- The conditional `delete_item` of `delete_conversation_by_id`
(`ConditionExpression="attribute_exists(PK) AND attribute_exists(SK)"`).
`fault` injects an arbitrary `ClientError` raised by the store. -/
def delete_item_cond (db : DB) (pk sk : String) (fault : Option ClientError) :
    DB × Except ClientError Unit :=
  match fault with
  | some e => (db, .error e)
  | none =>
    if (getItem db pk sk).isSome then (removeItem db pk sk, .ok ())
    else (db, .error ⟨ConditionalCheckFailed, "The conditional request failed"⟩)

/-- `delete_conversation_by_id(user_id, conversation_id)`: conditional
delete; a `ConditionalCheckFailedException` becomes
`RecordNotFoundError`, any other `ClientError` is re-raised unchanged. -/
def delete_conversation_by_id (db : DB) (user_id conversation_id : String)
    (fault : Option ClientError) : DB × Except RepoError Unit :=
  let r := delete_item_cond db user_id (_compose_conv_id user_id conversation_id) fault
  (r.1,
    match r.2 with
    | .ok _ => .ok ()
    | .error e =>
      if e.code = ConditionalCheckFailed then
        .error (.recordNotFound ("Conversation with id " ++ conversation_id ++ " not found"))
      else .error (.clientError e))

/-- The conditional `update_item` of `change_conversation_title`
(`UpdateExpression="set Title=:t"`, `ReturnValues="UPDATED_NEW"`,
existence condition).  Returns the updated attributes on success. -/
def update_item_title (db : DB) (pk sk new_title : String)
    (fault : Option ClientError) : DB × Except ClientError (List (String × AttrVal)) :=
  match fault with
  | some e => (db, .error e)
  | none =>
    if (getItem db pk sk).isSome then
      (⟨db.items.map fun j =>
          if j.PK == pk && j.SK == sk then setAttr j "Title" (.S new_title) else j⟩,
       .ok [("Title", .S new_title)])
    else (db, .error ⟨ConditionalCheckFailed, "The conditional request failed"⟩)

/-- `change_conversation_title(user_id, conversation_id, new_title)`:
conditional title update; a `ConditionalCheckFailedException` becomes
`RecordNotFoundError`, any other `ClientError` is re-raised unchanged. -/
def change_conversation_title (db : DB) (user_id conversation_id new_title : String)
    (fault : Option ClientError) : DB × Except RepoError (List (String × AttrVal)) :=
  let r := update_item_title db user_id (_compose_conv_id user_id conversation_id)
    new_title fault
  (r.1,
    match r.2 with
    | .ok a => .ok a
    | .error e =>
      if e.code = ConditionalCheckFailed then
        .error (.recordNotFound ("Conversation with id " ++ conversation_id ++ " not found"))
      else .error (.clientError e))

/-! ## Listing (`find_conversation_by_user_id`)

The store's native pagination is made explicit: the query result arrives
as a list of pages (each a list of items); `LastEvaluatedKey` is present
in a response exactly when further pages remain. -/

/-- `MAX_QUERY_COUNT` of `find_conversation_by_user_id`. -/
def MAX_QUERY_COUNT : Nat := 5

/-- Python `dict.popitem()[1]["model"]` after `json.loads` of the
serialized message map: takes the map's last entry, failing on an empty
dictionary. -/
def popitemModel (m : List (String × MessageModel)) : Except RepoError String :=
  match m.getLast? with
  | some kv => .ok kv.2.model
  | none => .error (.runtimeError "KeyError: popitem(): dictionary is empty")

/-- `json.loads(item["MessageMap"])`, failing like Python on a missing or
mistyped attribute. -/
def itemMessageMap (it : Item) : Except RepoError (List (String × MessageModel)) :=
  match getA it.attrs "MessageMap" with
  | some (.M m) => .ok m
  | _ => .error (.runtimeError "KeyError: MessageMap")

/-- Construction of one `ConversationMeta` from an item with the given
(already computed) `model` tag, field for field as in the source. -/
def metaWithModel (mo : String) (it : Item) : Except RepoError ConversationMeta :=
  match _decompose_conv_id it.SK with
  | none => .error (.runtimeError "conversation key decomposition failed")
  | some cid =>
    match getA it.attrs "CreateTime" with
    | some (.N ct) =>
      match getA it.attrs "Title" with
      | some (.S ti) =>
        match getA it.attrs "BotId" with
        | some (.S b) => .ok ⟨cid, ct, ti, mo, some b⟩
        | some .NullV => .ok ⟨cid, ct, ti, mo, none⟩
        | _ => .error (.runtimeError "KeyError: BotId")
      | _ => .error (.runtimeError "KeyError: Title")
    | _ => .error (.runtimeError "KeyError: CreateTime")

/-- A first-page `ConversationMeta`: the `model` tag is read from the
item's own message map (`json.loads(item["MessageMap"]).popitem()[1]["model"]`). -/
def metaOwn (it : Item) : Except RepoError ConversationMeta := do
  let m ← itemMessageMap it
  let mo ← popitemModel m
  metaWithModel mo it

/-- Build the summaries of one page of items, stopping at the first
failing item (a Python list comprehension evaluates in order). -/
def metaList (f : Item → Except RepoError ConversationMeta) :
    List Item → Except RepoError (List ConversationMeta)
  | [] => .ok []
  | it :: rest => do
    let m ← f it
    let ms ← metaList f rest
    .ok (m :: ms)

/-- The `while "LastEvaluatedKey" in response` loop of
`find_conversation_by_user_id`.  `prev` is the current response's item
list, `rest` the pages not yet fetched, `qc` the query count so far.
Each iteration first reads the carried `model` tag from the first item of
the current response, then fetches the next page, appends its summaries,
increments the count and breaks (warning logged, second component `true`)
once the count exceeds `MAX_QUERY_COUNT`. -/
def findLoop : List Item → List (List Item) → Nat → List ConversationMeta →
    Except RepoError (List ConversationMeta × Bool)
  | _, [], _, acc => .ok (acc, false)
  | prev, page :: rest, qc, acc => do
    let mo ← (match prev with
      | [] => Except.error (RepoError.runtimeError "IndexError: list index out of range")
      | it :: _ => do
          let m ← itemMessageMap it
          popitemModel m)
    let ms ← metaList (metaWithModel mo) page
    if qc + 1 > MAX_QUERY_COUNT then .ok (acc ++ ms, true)
    else findLoop page rest (qc + 1) (acc ++ ms)

/-- `find_conversation_by_user_id(user_id)` over the store's native
pagination of the conversation query: first page summaries carry their
own `model` tag, the loop then pages through the remainder. -/
def find_conversation_by_user_id (pages : List (List Item)) :
    Except RepoError (List ConversationMeta × Bool) := do
  let page0 := pages.headD []
  let ms ← metaList metaOwn page0
  findLoop page0 pages.tail 1 ms

/-! ## Bulk delete (`delete_conversation_by_user_id`) -/

/-- Modelled from the spec: `TRANSACTION_BATCH_SIZE` of the (missing)
module `app/repositories/common.py`, the fixed transaction/batch limit
constant (the DynamoDB transaction limit, 25). -/
def TRANSACTION_BATCH_SIZE : Nat := 25

/-- Split a list into consecutive chunks of size `n`
(`range(0, len(items), n)` slicing; `n ≥ 1`). -/
def chunksOf (n : Nat) : List α → List (List α)
  | [] => []
  | a :: rest => (a :: rest.take (n - 1)) :: chunksOf n (rest.drop (n - 1))
termination_by l => l.length
decreasing_by simp [List.length_drop]; omega

/-- `delete_batch`: one `batch_writer` block deleting every key of the
batch (`Key={"PK": user_id, "SK": item["SK"]}`). -/
def delete_batch (db : DB) (user_id : String) (batch : List String) : DB :=
  batch.foldl (fun d sk => removeItem d user_id sk) db

/-- Run the batches of one page in order, threading a global batch
counter; the batch with index `n` of the fault schedule raises a
`ClientError` before deleting anything (third component `true` = a
storage error occurred). -/
def runBatches (u : String) : DB → List (List String) → Nat → Option Nat →
    DB × Nat × Bool
  | db, [], k, _ => (db, k, false)
  | db, b :: rest, k, fault =>
    if fault = some k then (db, k, true)
    else runBatches u (delete_batch db u b) rest (k + 1) fault

/-- The `while True` page loop of `delete_conversation_by_user_id`:
delete the current page in `TRANSACTION_BATCH_SIZE`-bounded batches,
stop on a storage error (which the surrounding `except ClientError`
logs), otherwise continue until no `LastEvaluatedKey` remains. -/
def deletePagesLoop (u : String) : DB → List (List String) → Nat → Option Nat →
    DB × Bool
  | db, [], _, _ => (db, false)
  | db, page :: rest, k, fault =>
    match runBatches u db (chunksOf TRANSACTION_BATCH_SIZE page) k fault with
    | (db', k', false) => deletePagesLoop u db' rest k' fault
    | (db', _, true) => (db', true)

/-- `delete_conversation_by_user_id(user_id)` over the store's native
pagination (`pages` are the key-only query pages, each a list of sort
keys).  `fault` optionally injects a `ClientError` at the batch write
with the given global index; the error is caught, logged and the
operation stops — it never propagates (second component `true` = error
logged). -/
def delete_conversation_by_user_id (db : DB) (user_id : String)
    (pages : List (List String)) (fault : Option Nat) : DB × Bool :=
  deletePagesLoop user_id db pages 0 fault

/-! ## Helper lemmas -/

lemma compose_bot_ne_conv (u b c : String) :
    _compose_bot_id u b ≠ _compose_conv_id u c := by
  intro h
  have hdat := congrArg String.data h
  simp only [_compose_bot_id, _compose_conv_id, String.data_append,
    List.append_assoc] at hdat
  have htail := List.append_cancel_left hdat
  simp at htail

lemma setAttr_PK (it : Item) (n : String) (v : AttrVal) :
    (setAttr it n v).PK = it.PK := rfl

lemma setAttr_SK (it : Item) (n : String) (v : AttrVal) :
    (setAttr it n v).SK = it.SK := rfl

lemma getA_setA_self (l : List (String × AttrVal)) (n : String) (v : AttrVal) :
    getA (setA l n v) n = some v := by
  induction l with
  | nil => simp [setA, getA]
  | cons kv rest ih =>
    obtain ⟨k, w⟩ := kv
    by_cases h : k = n
    · simp [setA, getA, h]
    · simp [setA, getA, h, ih]

lemma getA_setA_ne (l : List (String × AttrVal)) (n m : String) (v : AttrVal)
    (h : m ≠ n) : getA (setA l n v) m = getA l m := by
  induction l with
  | nil => simp [setA, getA, Ne.symm h]
  | cons kv rest ih =>
    obtain ⟨k, w⟩ := kv
    by_cases hk : k = n
    · subst hk
      simp [setA, getA, Ne.symm h]
    · by_cases hm : k = m
      · simp [setA, getA, hk, hm, h]
      · simp [setA, getA, hk, hm, ih]

lemma filter_map_invariant (f : Item → Item) (p : Item → Bool) (l : List Item)
    (h : ∀ j, p (f j) = p j) (h2 : ∀ j, p j = true → f j = j) :
    (l.map f).filter p = l.filter p := by
  induction l with
  | nil => rfl
  | cons a l ih =>
    simp only [List.map_cons, List.filter_cons, h a]
    by_cases hp : p a = true
    · rw [if_pos hp, if_pos hp, h2 a hp, ih]
    · rw [if_neg hp, if_neg hp, ih]

lemma skIndexQuery_put_self (db : DB) (it : Item)
    (hclean : ∀ j ∈ db.items, j.SK ≠ it.SK) :
    skIndexQuery (putItem db it) it.SK = [it] := by
  have h0 : List.filter (fun j => j.SK == it.SK)
      (db.items.filter fun j => !(j.PK == it.PK && j.SK == it.SK)) = [] := by
    rw [List.filter_eq_nil_iff]
    intro a ha
    have := hclean a (List.mem_filter.mp ha).1
    simp [this]
  unfold skIndexQuery putItem
  rw [List.filter_cons, if_pos (by simp), h0]

lemma skIndexQuery_update_other (db : DB) (pk sk : String) (n : String)
    (v : AttrVal) (sk' : String) (hne : sk ≠ sk') :
    skIndexQuery (updateAttrAt db pk sk n v) sk' = skIndexQuery db sk' := by
  unfold updateAttrAt
  by_cases hex : (getItem db pk sk).isSome
  · simp only [hex, if_pos, skIndexQuery]
    apply filter_map_invariant
    · intro j
      by_cases hcond : (j.PK == pk && j.SK == sk) = true
      · simp only [if_pos hcond, setAttr_SK]
      · simp only [if_neg hcond]
    · intro j hp
      have hj : j.SK = sk' := beq_iff_eq.mp hp
      have : (j.PK == pk && j.SK == sk) = false := by
        have : (j.SK == sk) = false := by
          rw [hj]
          exact beq_false_of_ne (Ne.symm hne)
        simp [this]
      simp [this]
  · simp only [hex, Bool.false_eq_true, if_neg, not_false_iff, skIndexQuery,
      List.filter_cons]
    have : (({ PK := pk, SK := sk, attrs := [(n, v)] } : Item).SK == sk') = false :=
      beq_false_of_ne hne
    simp [this]

lemma parse_conv_item (u : String) (c : ConversationModel)
    (hdec : _decompose_conv_id (_compose_conv_id u c.id) = some c.id) :
    parseConversation (conv_item u c) = .ok c := by
  obtain ⟨cid, ti, ct, mm, lm, bid⟩ := c
  simp only [conv_item] at hdec ⊢
  unfold parseConversation
  simp only [hdec]
  cases bid <;> simp [getA]

/-! ## Shared concrete fixtures -/

/-- A sample message. -/
def msgW : MessageModel := ⟨"user", ⟨"text", "Hello"⟩, "claude-instant-v1", [], none, 1⟩

/-- A sample conversation without a bot. -/
def convW : ConversationModel := ⟨"c1", "hello", 2, [("m1", msgW)], "m1", none⟩

/-- A sample conversation referencing bot `b1`. -/
def convWB : ConversationModel := ⟨"c2", "with bot", 3, [("m1", msgW)], "m1", some "b1"⟩

/-! ## Claim C1 -/

/-- Claim C1: after `store_conversation(u, C)` succeeds,
`find_conversation_by_id(u, C.id)` returns a conversation equal to `C` in
all fields (title, create_time, full message-map contents, last_message_id,
bot_id).  Hypotheses: the (spec-modelled) key codec round-trips on these
ids, and no pre-existing record of another partition carries the same
composed sort key. -/
theorem C1_round_trip (db : DB) (u : String) (c : ConversationModel) (now : Rat)
    (hdec : _decompose_conv_id (_compose_conv_id u c.id) = some c.id)
    (hclean : ∀ j ∈ db.items, j.SK ≠ _compose_conv_id u c.id) :
    find_conversation_by_id (store_conversation db u c now false).1 u c.id = .ok c := by
  have hsk : (conv_item u c).SK = _compose_conv_id u c.id := rfl
  cases hb : c.bot_id with
  | none =>
    have hdb : (store_conversation db u c now false).1 = putItem db (conv_item u c) := by
      simp [store_conversation, transact_write_items, store_transact_items, hb,
        applyTransactItem]
    rw [hdb]
    unfold find_conversation_by_id
    rw [show _compose_conv_id u c.id = (conv_item u c).SK from rfl]
    rw [skIndexQuery_put_self db (conv_item u c) (by rw [hsk]; exact hclean)]
    exact parse_conv_item u c hdec
  | some b =>
    have hdb : (store_conversation db u c now false).1 =
        updateAttrAt (putItem db (conv_item u c)) u (_compose_bot_id u b)
          "LastBotUsed" (.N now) := by
      simp [store_conversation, transact_write_items, store_transact_items, hb,
        applyTransactItem]
    rw [hdb]
    unfold find_conversation_by_id
    rw [skIndexQuery_update_other _ _ _ _ _ _ (compose_bot_ne_conv u b c.id)]
    rw [show _compose_conv_id u c.id = (conv_item u c).SK from rfl]
    rw [skIndexQuery_put_self db (conv_item u c) (by rw [hsk]; exact hclean)]
    exact parse_conv_item u c hdec

/-- Witness for C1 at a concrete input: storing `convW` for user `u1` into
an empty table and reading it back by id yields `convW` itself. -/
theorem C1_witness :
    (_decompose_conv_id (_compose_conv_id "u1" convW.id) = some convW.id) ∧
    (∀ j ∈ (⟨[]⟩ : DB).items, j.SK ≠ _compose_conv_id "u1" convW.id) ∧
    find_conversation_by_id (store_conversation ⟨[]⟩ "u1" convW 9 false).1 "u1" convW.id
      = .ok convW :=
  ⟨by decide, by decide, C1_round_trip ⟨[]⟩ "u1" convW 9 (by decide) (by decide)⟩

/-! ## More helper lemmas: point lookups under writes -/

lemma find?_filter_of_imp (p q : Item → Bool) (l : List Item)
    (h : ∀ j, p j = true → q j = true) :
    (l.filter q).find? p = l.find? p := by
  induction l with
  | nil => rfl
  | cons a l ih =>
    by_cases hq : q a = true
    · rw [List.filter_cons, if_pos hq]
      by_cases hp : p a = true
      · rw [List.find?_cons_of_pos _ hp, List.find?_cons_of_pos _ hp]
      · rw [List.find?_cons_of_neg _ hp, List.find?_cons_of_neg _ hp, ih]
    · rw [List.filter_cons, if_neg hq]
      have hp : ¬ p a = true := fun hpa => hq (h a hpa)
      rw [ih, List.find?_cons_of_neg _ hp]

lemma find?_map_pres (f : Item → Item) (p : Item → Bool) (l : List Item)
    (h : ∀ x, p (f x) = p x) : (l.map f).find? p = (l.find? p).map f := by
  induction l with
  | nil => rfl
  | cons a l ih =>
    by_cases hp : p a = true
    · rw [List.map_cons, List.find?_cons_of_pos _ (by rw [h a]; exact hp),
        List.find?_cons_of_pos _ hp]
      rfl
    · rw [List.map_cons, List.find?_cons_of_neg _ (by rw [h a]; exact hp),
        List.find?_cons_of_neg _ hp, ih]

lemma getItem_put_other (db : DB) (it : Item) (pk sk : String)
    (hne : sk ≠ it.SK) : getItem (putItem db it) pk sk = getItem db pk sk := by
  unfold getItem putItem
  rw [List.find?_cons_of_neg]
  · apply find?_filter_of_imp
    intro j hj
    have hsk : j.SK = sk := by
      have := ((Bool.and_eq_true _ _).mp hj).2
      exact beq_iff_eq.mp this
    have : (j.SK == it.SK) = false := by
      rw [hsk]; exact beq_false_of_ne hne
    simp [this]
  · intro hit
    have := ((Bool.and_eq_true _ _).mp hit).2
    exact hne (beq_iff_eq.mp this).symm

lemma getItem_update_self (db : DB) (pk sk n : String) (v : AttrVal) :
    getItem (updateAttrAt db pk sk n v) pk sk =
      match getItem db pk sk with
      | some j => some (setAttr j n v)
      | none => some ⟨pk, sk, [(n, v)]⟩ := by
  unfold updateAttrAt
  cases hg : getItem db pk sk with
  | none =>
    simp only [Option.isSome_none, Bool.false_eq_true, if_neg, not_false_iff]
    unfold getItem
    rw [List.find?_cons_of_pos]
    simp
  | some j =>
    simp only [Option.isSome_some, if_pos]
    unfold getItem
    rw [find?_map_pres]
    · unfold getItem at hg
      rw [hg]
      have hp := List.find?_some hg
      have h1 : j.PK = pk := beq_iff_eq.mp ((Bool.and_eq_true _ _).mp hp).1
      have h2 : j.SK = sk := beq_iff_eq.mp ((Bool.and_eq_true _ _).mp hp).2
      simp [hp]
      intro hcon
      exact absurd h2 (hcon h1)
    · intro x
      by_cases hc : (x.PK == pk && x.SK == sk) = true
      · simp only [if_pos hc]
        have h1 : x.PK = pk := beq_iff_eq.mp ((Bool.and_eq_true _ _).mp hc).1
        have h2 : x.SK = sk := beq_iff_eq.mp ((Bool.and_eq_true _ _).mp hc).2
        simp [setAttr_PK, setAttr_SK, hc, h1, h2]
      · simp only [if_neg hc]

/-! ## Claim C3 -/

lemma parse_not_rnf (it : Item) (msg : String) :
    parseConversation it ≠ .error (.recordNotFound msg) := by
  unfold parseConversation
  repeat' split
  all_goals simp

/-- Claim C3: on a record that is not present, `delete_conversation_by_id`
and `change_conversation_title` fail with `RecordNotFound` (leaving the
table unchanged — no silent success), `find_conversation_by_id` fails with
`RecordNotFound` exactly when its index query returns zero rows, and any
storage error other than the existence-condition failure propagates
unchanged. -/
theorem C3_record_not_found :
    (∀ db u cid, getItem db u (_compose_conv_id u cid) = none →
      delete_conversation_by_id db u cid none =
        (db, .error (.recordNotFound ("Conversation with id " ++ cid ++ " not found")))) ∧
    (∀ db u cid e, e.code ≠ ConditionalCheckFailed →
      delete_conversation_by_id db u cid (some e) = (db, .error (.clientError e))) ∧
    (∀ db u cid nt, getItem db u (_compose_conv_id u cid) = none →
      change_conversation_title db u cid nt none =
        (db, .error (.recordNotFound ("Conversation with id " ++ cid ++ " not found")))) ∧
    (∀ db u cid nt e, e.code ≠ ConditionalCheckFailed →
      change_conversation_title db u cid nt (some e) = (db, .error (.clientError e))) ∧
    (∀ db u cid, (∃ msg, find_conversation_by_id db u cid = .error (.recordNotFound msg)) ↔
      skIndexQuery db (_compose_conv_id u cid) = []) := by
  refine ⟨?_, ?_, ?_, ?_, ?_⟩
  · intro db u cid h
    simp [delete_conversation_by_id, delete_item_cond, h, ConditionalCheckFailed]
  · intro db u cid e he
    simp [delete_conversation_by_id, delete_item_cond, he]
  · intro db u cid nt h
    simp [change_conversation_title, update_item_title, h, ConditionalCheckFailed]
  · intro db u cid nt e he
    simp [change_conversation_title, update_item_title, he]
  · intro db u cid
    constructor
    · rintro ⟨msg, hmsg⟩
      cases hq : skIndexQuery db (_compose_conv_id u cid) with
      | nil => rfl
      | cons item rest =>
        unfold find_conversation_by_id at hmsg
        rw [hq] at hmsg
        exact absurd hmsg (parse_not_rnf item msg)
    · intro hq
      refine ⟨"No conversation found with id: " ++ cid, ?_⟩
      unfold find_conversation_by_id
      rw [hq]

/-- Witness for C3: concrete absent record and concrete foreign
`ClientError` on an empty table. -/
theorem C3_witness :
    (getItem ⟨[]⟩ "u1" (_compose_conv_id "u1" "nope") = none) ∧
    delete_conversation_by_id ⟨[]⟩ "u1" "nope" none =
      (⟨[]⟩, .error (.recordNotFound "Conversation with id nope not found")) ∧
    delete_conversation_by_id ⟨[]⟩ "u1" "nope"
        (some ⟨"ThrottlingException", "slow down"⟩) =
      (⟨[]⟩, .error (.clientError ⟨"ThrottlingException", "slow down"⟩)) ∧
    change_conversation_title ⟨[]⟩ "u1" "nope" "t" none =
      (⟨[]⟩, .error (.recordNotFound "Conversation with id nope not found")) ∧
    (∃ msg, find_conversation_by_id ⟨[]⟩ "u1" "nope" = .error (.recordNotFound msg)) :=
  ⟨by decide,
   by
     have := C3_record_not_found.1 ⟨[]⟩ "u1" "nope" (by decide)
     simpa using this,
   C3_record_not_found.2.1 ⟨[]⟩ "u1" "nope" ⟨"ThrottlingException", "slow down"⟩ (by decide),
   by
     have := C3_record_not_found.2.2.1 ⟨[]⟩ "u1" "nope" "t" (by decide)
     simpa using this,
   (C3_record_not_found.2.2.2.2 ⟨[]⟩ "u1" "nope").mpr (by decide)⟩

/-! ## Claim C4 -/

/-- Claim C4: for a conversation whose `bot_id` is set,
`store_conversation` issues the conversation `Put` and the bot-side
`Update` inside one `transact_write_items` call; when the transaction is
rejected, the table is unchanged — the conversation item is not created.
Both writes commit (applied in one atomic application) or neither does. -/
theorem C4_atomic_put (db : DB) (u : String) (c : ConversationModel) (now : Rat)
    (b : String) (hb : c.bot_id = some b) :
    store_transact_items u c now =
      [.put (conv_item u c),
       .update u (_compose_bot_id u b) "LastBotUsed" (.N now)] ∧
    (store_conversation db u c now true).1 = db ∧
    (store_conversation db u c now true).2 =
      .error (.clientError ⟨"TransactionCanceledException", "Transaction cancelled"⟩) ∧
    (store_conversation db u c now false).1 =
      updateAttrAt (putItem db (conv_item u c)) u (_compose_bot_id u b)
        "LastBotUsed" (.N now) := by
  refine ⟨?_, rfl, rfl, ?_⟩
  · simp [store_transact_items, hb]
  · simp [store_conversation, transact_write_items, store_transact_items, hb,
      applyTransactItem]

/-- Witness for C4: rejecting the transaction for `convWB` (bot set) on an
empty table leaves the table empty — the conversation item is absent. -/
theorem C4_witness :
    convWB.bot_id = some "b1" ∧
    (store_conversation ⟨[]⟩ "u1" convWB 9 true).1 = ⟨[]⟩ :=
  ⟨by decide, (C4_atomic_put ⟨[]⟩ "u1" convWB 9 "b1" (by decide)).2.1⟩

/-! ## Claim C5 -/

/-- A pre-existing bot item for `u1`/`b1` whose `LastUsedTime` is 1. -/
def botItemW : Item := ⟨"u1", _compose_bot_id "u1" "b1", [("LastUsedTime", .N 1)]⟩

/-- Claim C5 counterexample: storing `convWB` (bot `b1`) at current time 99
leaves the bot record's `LastUsedTime` attribute untouched (still 1); the
transaction instead sets an attribute named `LastBotUsed`.  This refutes
the claim that the transaction sets the `LastUsedTime` attribute to the
current time. -/
theorem C5_counterexample :
    ((getItem (store_conversation ⟨[botItemW]⟩ "u1" convWB 99 false).1 "u1"
        (_compose_bot_id "u1" "b1")).map fun it => getA it.attrs "LastUsedTime")
      = some (some (.N 1)) ∧
    ((getItem (store_conversation ⟨[botItemW]⟩ "u1" convWB 99 false).1 "u1"
        (_compose_bot_id "u1" "b1")).map fun it => getA it.attrs "LastBotUsed")
      = some (some (.N 99)) ∧
    (AttrVal.N 1) ≠ (AttrVal.N 99) := by decide

/-- Claim C5 as amended: for every conversation whose `bot_id` is set, the
transaction of `store_conversation` updates the bot record at the composed
bot key by setting its `LastBotUsed` attribute to the current time; the
`LastUsedTime` attribute is left exactly as it was. -/
theorem C5_amended (db : DB) (u : String) (c : ConversationModel) (now : Rat)
    (b : String) (hb : c.bot_id = some b) :
    ∃ it, getItem (store_conversation db u c now false).1 u (_compose_bot_id u b)
        = some it ∧
      getA it.attrs "LastBotUsed" = some (.N now) ∧
      getA it.attrs "LastUsedTime" =
        (getItem db u (_compose_bot_id u b)).bind fun j => getA j.attrs "LastUsedTime" := by
  have hdb : (store_conversation db u c now false).1 =
      updateAttrAt (putItem db (conv_item u c)) u (_compose_bot_id u b)
        "LastBotUsed" (.N now) := by
    simp [store_conversation, transact_write_items, store_transact_items, hb,
      applyTransactItem]
  rw [hdb, getItem_update_self]
  have hput : getItem (putItem db (conv_item u c)) u (_compose_bot_id u b)
      = getItem db u (_compose_bot_id u b) :=
    getItem_put_other db (conv_item u c) u (_compose_bot_id u b)
      (compose_bot_ne_conv u b c.id)
  rw [hput]
  cases hg : getItem db u (_compose_bot_id u b) with
  | none =>
    refine ⟨_, rfl, ?_, ?_⟩
    · simp [getA]
    · simp [getA]
  | some j =>
    refine ⟨_, rfl, ?_, ?_⟩
    · exact getA_setA_self j.attrs "LastBotUsed" (.N now)
    · rw [show (setAttr j "LastBotUsed" (.N now)).attrs = setA j.attrs "LastBotUsed" (.N now) from rfl]
      rw [getA_setA_ne j.attrs "LastBotUsed" "LastUsedTime" (.N now) (by decide)]
      rfl

/-- Witness for C5's amended theorem at a concrete input. -/
theorem C5_witness :
    convWB.bot_id = some "b1" ∧
    ∃ it, getItem (store_conversation ⟨[botItemW]⟩ "u1" convWB 99 false).1 "u1"
        (_compose_bot_id "u1" "b1") = some it ∧
      getA it.attrs "LastBotUsed" = some (.N 99) ∧
      getA it.attrs "LastUsedTime" =
        (getItem ⟨[botItemW]⟩ "u1" (_compose_bot_id "u1" "b1")).bind
          fun j => getA j.attrs "LastUsedTime" :=
  ⟨by decide, C5_amended ⟨[botItemW]⟩ "u1" convWB 99 "b1" (by decide)⟩

/-! ## Claim C6 -/

/-- Claim C6: on an existing record, `change_conversation_title` replaces
only the `Title` attribute — every other attribute of the record, and
every other record of the table, is unchanged — and returns the updated
value (`UPDATED_NEW`: just the new title). -/
theorem C6_update_title (db : DB) (u cid nt : String) (it : Item)
    (hex : getItem db u (_compose_conv_id u cid) = some it) :
    (change_conversation_title db u cid nt none).2 = .ok [("Title", .S nt)] ∧
    getItem (change_conversation_title db u cid nt none).1 u (_compose_conv_id u cid)
      = some (setAttr it "Title" (.S nt)) ∧
    (∀ n, n ≠ "Title" →
      getA (setAttr it "Title" (.S nt)).attrs n = getA it.attrs n) ∧
    (∀ pk sk, ¬(pk = u ∧ sk = _compose_conv_id u cid) →
      getItem (change_conversation_title db u cid nt none).1 pk sk
        = getItem db pk sk) := by
  have hpres : ∀ (pk sk : String) (x : Item),
      ((fun j => if j.PK == u && j.SK == _compose_conv_id u cid
          then setAttr j "Title" (.S nt) else j) x).PK = x.PK ∧
      ((fun j => if j.PK == u && j.SK == _compose_conv_id u cid
          then setAttr j "Title" (.S nt) else j) x).SK = x.SK := by
    intro pk sk x
    by_cases hc : (x.PK == u && x.SK == _compose_conv_id u cid) = true
    · refine ⟨?_, ?_⟩ <;> simp [hc, setAttr_PK, setAttr_SK]
    · refine ⟨?_, ?_⟩ <;> simp [hc]
  have hdb : (change_conversation_title db u cid nt none).1 =
      ⟨db.items.map fun j => if j.PK == u && j.SK == _compose_conv_id u cid
          then setAttr j "Title" (.S nt) else j⟩ := by
    simp [change_conversation_title, update_item_title, hex]
  refine ⟨?_, ?_, ?_, ?_⟩
  · simp [change_conversation_title, update_item_title, hex]
  · rw [hdb]
    unfold getItem
    rw [find?_map_pres]
    · unfold getItem at hex
      rw [hex]
      have hp := List.find?_some hex
      simp [hp]
      intro hcon
      have h1 : it.PK = u := beq_iff_eq.mp ((Bool.and_eq_true _ _).mp hp).1
      have h2 : it.SK = _compose_conv_id u cid :=
        beq_iff_eq.mp ((Bool.and_eq_true _ _).mp hp).2
      exact absurd h2 (hcon h1)
    · intro x
      rcases hpres u (_compose_conv_id u cid) x with ⟨hP, hS⟩
      rw [hP, hS]
  · intro n hn
    exact getA_setA_ne it.attrs "Title" n (.S nt) hn
  · intro pk sk hkey
    rw [hdb]
    unfold getItem
    rw [find?_map_pres]
    · cases hf : db.items.find? fun j => j.PK == pk && j.SK == sk with
      | none => rfl
      | some j =>
        have hp := List.find?_some hf
        have h1 : j.PK = pk := beq_iff_eq.mp ((Bool.and_eq_true _ _).mp hp).1
        have h2 : j.SK = sk := beq_iff_eq.mp ((Bool.and_eq_true _ _).mp hp).2
        have hcond : (j.PK == u && j.SK == _compose_conv_id u cid) = false := by
          cases hcc : (j.PK == u && j.SK == _compose_conv_id u cid) with
          | false => rfl
          | true =>
            have hu : j.PK = u := beq_iff_eq.mp ((Bool.and_eq_true _ _).mp hcc).1
            have hsk : j.SK = _compose_conv_id u cid :=
              beq_iff_eq.mp ((Bool.and_eq_true _ _).mp hcc).2
            exact absurd ⟨h1 ▸ hu, h2 ▸ hsk⟩ hkey
        have hj : (if (j.PK == u && j.SK == _compose_conv_id u cid) = true
            then setAttr j "Title" (AttrVal.S nt) else j) = j := by
          rw [hcond]
          simp
        simp only [Option.map_some']
        rw [hj]
    · intro x
      rcases hpres pk sk x with ⟨hP, hS⟩
      rw [hP, hS]

/-- The stored item of `convW` under user `u1`. -/
def convItemW : Item := conv_item "u1" convW

/-- Witness for C6 at a concrete input: retitling `convW` in a one-item
table. -/
theorem C6_witness :
    getItem ⟨[convItemW]⟩ "u1" (_compose_conv_id "u1" "c1") = some convItemW ∧
    (change_conversation_title ⟨[convItemW]⟩ "u1" "c1" "new title" none).2
      = .ok [("Title", .S "new title")] ∧
    getItem (change_conversation_title ⟨[convItemW]⟩ "u1" "c1" "new title" none).1
        "u1" (_compose_conv_id "u1" "c1")
      = some (setAttr convItemW "Title" (.S "new title")) :=
  ⟨by decide,
   (C6_update_title ⟨[convItemW]⟩ "u1" "c1" "new title" convItemW (by decide)).1,
   (C6_update_title ⟨[convItemW]⟩ "u1" "c1" "new title" convItemW (by decide)).2.1⟩

/-! ## Listing: well-formedness and specification functions -/

/-- A stored conversation item is well formed for listing: its key
decomposes, `CreateTime`/`Title`/`BotId` have the stored shapes and its
message map is non-empty. -/
def goodItem (it : Item) : Bool :=
  (_decompose_conv_id it.SK).isSome &&
  (match getA it.attrs "CreateTime" with | some (.N _) => true | _ => false) &&
  (match getA it.attrs "Title" with | some (.S _) => true | _ => false) &&
  (match getA it.attrs "BotId" with
    | some (.S _) => true | some .NullV => true | _ => false) &&
  (match getA it.attrs "MessageMap" with | some (.M (_ :: _)) => true | _ => false)

/-- Well-formed pagination: every page is non-empty and made of
well-formed items. -/
def goodPages (pages : List (List Item)) : Prop :=
  ∀ page ∈ pages, page ≠ [] ∧ ∀ it ∈ page, goodItem it = true

instance goodPagesDec (pages : List (List Item)) : Decidable (goodPages pages) := by
  unfold goodPages
  infer_instance

/-- The stored message map of an item (empty when absent). -/
def mmOf (it : Item) : List (String × MessageModel) :=
  match getA it.attrs "MessageMap" with | some (.M m) => m | _ => []

/-- The `model` of the last entry of an item's message map — what
`popitem()[1]["model"]` returns on a well-formed item. -/
def lastModel (it : Item) : String :=
  match (mmOf it).getLast? with | some kv => kv.2.model | none => ""

/-- The summary built from an item with an externally supplied model tag. -/
def mkMeta (mo : String) (it : Item) : ConversationMeta :=
  { id := (_decompose_conv_id it.SK).getD ""
    create_time := match getA it.attrs "CreateTime" with | some (.N q) => q | _ => 0
    title := match getA it.attrs "Title" with | some (.S s) => s | _ => ""
    model := mo
    bot_id := match getA it.attrs "BotId" with | some (.S b) => some b | _ => none }

/-- The summary built from an item using its own message map's model. -/
def mkMetaOwn (it : Item) : ConversationMeta := mkMeta (lastModel it) it

/-- Specification of the pagination loop: with `cap` remaining loop
iterations, each processed page's summaries all carry the model of the
first item of the page before it. -/
def specLoop : Item → List (List Item) → Nat → List ConversationMeta
  | _, [], _ => []
  | _, _ :: _, 0 => []
  | prevHd, page :: rest, cap + 1 =>
      page.map (mkMeta (lastModel prevHd)) ++
        (match page with
         | [] => []
         | hd :: _ => specLoop hd rest cap)

/-- Specification of the full listing result. -/
def specAll (pages : List (List Item)) : List ConversationMeta :=
  match pages with
  | [] => []
  | page0 :: rest =>
      page0.map mkMetaOwn ++
        (match page0 with
         | [] => []
         | hd :: _ => specLoop hd rest MAX_QUERY_COUNT)

lemma metaWithModel_good (mo : String) (it : Item) (h : goodItem it = true) :
    metaWithModel mo it = .ok (mkMeta mo it) := by
  unfold goodItem at h
  simp only [Bool.and_eq_true] at h
  obtain ⟨⟨⟨⟨hdec, hct⟩, hti⟩, hbid⟩, _⟩ := h
  unfold metaWithModel mkMeta
  cases hd : _decompose_conv_id it.SK with
  | none => simp [hd] at hdec
  | some cid =>
    cases hc : getA it.attrs "CreateTime" with
    | none => simp [hc] at hct
    | some v =>
      cases v with
      | N q =>
        cases ht : getA it.attrs "Title" with
        | none => simp [ht] at hti
        | some w =>
          cases w with
          | S s =>
            cases hb : getA it.attrs "BotId" with
            | none => simp [hb] at hbid
            | some x =>
              cases x with
              | S b => simp [hd, hc, ht, hb]
              | NullV => simp [hd, hc, ht, hb]
              | N q2 => simp [hb] at hbid
              | M m => simp [hb] at hbid
          | N q2 => simp [ht] at hti
          | NullV => simp [ht] at hti
          | M m => simp [ht] at hti
      | S s => simp [hc] at hct
      | NullV => simp [hc] at hct
      | M m => simp [hc] at hct

lemma goodItem_mm (it : Item) (h : goodItem it = true) :
    ∃ m0 ms, getA it.attrs "MessageMap" = some (.M (m0 :: ms)) := by
  unfold goodItem at h
  simp only [Bool.and_eq_true] at h
  obtain ⟨_, hmm⟩ := h
  cases hm : getA it.attrs "MessageMap" with
  | none => simp [hm] at hmm
  | some v =>
    cases v with
    | M m =>
      cases m with
      | nil => simp [hm] at hmm
      | cons m0 ms => exact ⟨m0, ms, rfl⟩
    | S s => simp [hm] at hmm
    | N q => simp [hm] at hmm
    | NullV => simp [hm] at hmm

lemma popitem_lastModel (it : Item) (m0 : String × MessageModel)
    (ms : List (String × MessageModel))
    (hmm : getA it.attrs "MessageMap" = some (.M (m0 :: ms))) :
    popitemModel (m0 :: ms) = .ok (lastModel it) := by
  have hlm : lastModel it = match (m0 :: ms).getLast? with
      | some kv => kv.2.model
      | none => "" := by
    unfold lastModel mmOf
    rw [hmm]
  rw [hlm]
  unfold popitemModel
  cases hl : (m0 :: ms).getLast? with
  | none => exact absurd (List.getLast?_eq_none_iff.mp hl) (by simp)
  | some kv => rfl

/-- On a well-formed item, the `json.loads(...).popitem()[1]["model"]`
chain succeeds and returns the model of the last map entry. -/
lemma headModel_good (it : Item) (h : goodItem it = true) :
    (do
      let m ← itemMessageMap it
      popitemModel m) = Except.ok (lastModel it) := by
  obtain ⟨m0, ms, hmm⟩ := goodItem_mm it h
  unfold itemMessageMap
  rw [hmm]
  show popitemModel (m0 :: ms) = Except.ok (lastModel it)
  exact popitem_lastModel it m0 ms hmm

lemma metaOwn_good (it : Item) (h : goodItem it = true) :
    metaOwn it = .ok (mkMetaOwn it) := by
  obtain ⟨m0, ms, hmm⟩ := goodItem_mm it h
  unfold metaOwn itemMessageMap
  rw [hmm]
  show (do
    let mo ← popitemModel (m0 :: ms)
    metaWithModel mo it) = Except.ok (mkMetaOwn it)
  rw [popitem_lastModel it m0 ms hmm]
  show metaWithModel (lastModel it) it = Except.ok (mkMetaOwn it)
  exact metaWithModel_good (lastModel it) it h

lemma metaList_ok (f : Item → Except RepoError ConversationMeta)
    (g : Item → ConversationMeta) (page : List Item)
    (h : ∀ it ∈ page, f it = .ok (g it)) :
    metaList f page = .ok (page.map g) := by
  induction page with
  | nil => rfl
  | cons a l ih =>
    have ha := h a (by simp)
    have hl := ih fun it hit => h it (by simp [hit])
    unfold metaList
    rw [ha]
    show (do
      let ms ← metaList f l
      Except.ok (g a :: ms)) = Except.ok (List.map g (a :: l))
    rw [hl]
    rfl

lemma except_bind_ok {α β : Type} (a : α) (f : α → Except RepoError β) :
    (do
      let x ← (Except.ok a : Except RepoError α)
      f x) = f a := rfl

lemma findLoop_nil (prev : List Item) (qc : Nat) (acc : List ConversationMeta) :
    findLoop prev [] qc acc = .ok (acc, false) := rfl

lemma findLoop_cons (prevHd : Item) (prevTl : List Item) (page : List Item)
    (rest : List (List Item)) (qc : Nat) (acc : List ConversationMeta) :
    findLoop (prevHd :: prevTl) (page :: rest) qc acc = (do
      let mo ← (do
        let m ← itemMessageMap prevHd
        popitemModel m)
      let ms ← metaList (metaWithModel mo) page
      if qc + 1 > MAX_QUERY_COUNT then Except.ok (acc ++ ms, true)
      else findLoop page rest (qc + 1) (acc ++ ms)) := rfl

/-- Characterization of the pagination loop on well-formed pages: starting
at query count `qc`, it consumes `MAX_QUERY_COUNT + 1 - qc` further pages
(or all of them) and reports the truncation warning exactly when that
bound is reached. -/
lemma findLoop_spec :
    ∀ (rest : List (List Item)) (prevHd : Item) (prevTl : List Item)
      (qc : Nat) (acc : List ConversationMeta),
    1 ≤ qc → qc ≤ MAX_QUERY_COUNT →
    goodItem prevHd = true →
    goodPages rest →
    findLoop (prevHd :: prevTl) rest qc acc =
      .ok (acc ++ specLoop prevHd rest (MAX_QUERY_COUNT + 1 - qc),
           decide (MAX_QUERY_COUNT + 1 - qc ≤ rest.length)) := by
  intro rest
  induction rest with
  | nil =>
    intro prevHd prevTl qc acc h1 h5 hg hrest
    rw [findLoop_nil]
    have hz : decide (MAX_QUERY_COUNT + 1 - qc ≤ ([] : List (List Item)).length)
        = false := by
      rw [decide_eq_false_iff_not]
      simp only [List.length_nil, MAX_QUERY_COUNT] at h5 ⊢
      omega
    rw [hz]
    simp [specLoop]
  | cons page rest2 ih =>
    intro prevHd prevTl qc acc h1 h5 hg hrest
    obtain ⟨hpne, hpgood⟩ := hrest page (by simp)
    cases page with
    | nil => exact absurd rfl hpne
    | cons hd tl =>
      have hmo := headModel_good prevHd hg
      have hms := metaList_ok (metaWithModel (lastModel prevHd))
        (mkMeta (lastModel prevHd)) (hd :: tl)
        (fun it hit => metaWithModel_good (lastModel prevHd) it (hpgood it hit))
      rw [findLoop_cons, hmo, except_bind_ok, hms, except_bind_ok]
      by_cases hq : qc + 1 > MAX_QUERY_COUNT
      · rw [if_pos hq]
        have hq5 : qc = MAX_QUERY_COUNT := by
          simp only [MAX_QUERY_COUNT] at h5 hq ⊢
          omega
        subst hq5
        have hcap : MAX_QUERY_COUNT + 1 - MAX_QUERY_COUNT = 1 := by
          simp [MAX_QUERY_COUNT]
        rw [hcap]
        have hwarn : decide (1 ≤ ((hd :: tl) :: rest2).length) = true := by
          simp
        rw [hwarn]
        have h0 : specLoop hd rest2 0 = [] := by
          cases rest2 <;> rfl
        have hs1 : specLoop prevHd ((hd :: tl) :: rest2) 1 =
            (hd :: tl).map (mkMeta (lastModel prevHd)) ++ specLoop hd rest2 0 := rfl
        rw [hs1, h0, List.append_nil]
      · rw [if_neg hq]
        have hq4 : qc + 1 ≤ MAX_QUERY_COUNT := by omega
        have hrec := ih hd tl (qc + 1)
          (acc ++ (hd :: tl).map (mkMeta (lastModel prevHd)))
          (by omega) hq4 (hpgood hd (by simp))
          (fun p hp => hrest p (by simp [hp]))
        rw [hrec]
        have hcap : MAX_QUERY_COUNT + 1 - qc
            = (MAX_QUERY_COUNT + 1 - (qc + 1)) + 1 := by
          simp only [MAX_QUERY_COUNT] at h5 ⊢
          omega
        rw [hcap]
        have hspec : specLoop prevHd ((hd :: tl) :: rest2)
            ((MAX_QUERY_COUNT + 1 - (qc + 1)) + 1) =
            (hd :: tl).map (mkMeta (lastModel prevHd)) ++
              specLoop hd rest2 (MAX_QUERY_COUNT + 1 - (qc + 1)) := rfl
        rw [hspec, List.append_assoc]
        have hwarn : decide (MAX_QUERY_COUNT + 1 - (qc + 1) ≤ rest2.length) =
            decide ((MAX_QUERY_COUNT + 1 - (qc + 1)) + 1
              ≤ ((hd :: tl) :: rest2).length) := by
          rw [decide_eq_decide]
          simp only [List.length_cons]
          omega
        rw [hwarn]

/-- The full listing on well-formed pages: success, result `specAll`,
warning exactly when at least `MAX_QUERY_COUNT + 1` pages exist. -/
lemma find_by_user_spec (pages : List (List Item)) (h : goodPages pages) :
    find_conversation_by_user_id pages =
      .ok (specAll pages, decide (MAX_QUERY_COUNT + 1 ≤ pages.length)) := by
  cases pages with
  | nil => rfl
  | cons page0 rest =>
    obtain ⟨hne, hgood⟩ := h page0 (by simp)
    cases page0 with
    | nil => exact absurd rfl hne
    | cons hd tl =>
      have h1 : metaList metaOwn (hd :: tl) = .ok ((hd :: tl).map mkMetaOwn) :=
        metaList_ok metaOwn mkMetaOwn (hd :: tl)
          (fun it hit => metaOwn_good it (hgood it hit))
      unfold find_conversation_by_user_id
      simp only [List.headD_cons, List.tail_cons]
      rw [h1, except_bind_ok]
      rw [findLoop_spec rest hd tl 1 ((hd :: tl).map mkMetaOwn)
        (by omega) (by simp [MAX_QUERY_COUNT]) (hgood hd (by simp))
        (fun p hp => h p (by simp [hp]))]
      have hs : specAll ((hd :: tl) :: rest) =
          (hd :: tl).map mkMetaOwn ++ specLoop hd rest MAX_QUERY_COUNT := rfl
      rw [hs]
      have hcap : MAX_QUERY_COUNT + 1 - 1 = MAX_QUERY_COUNT := by omega
      rw [hcap]
      have hwarn : decide (MAX_QUERY_COUNT ≤ rest.length) =
          decide (MAX_QUERY_COUNT + 1 ≤ ((hd :: tl) :: rest).length) := by
        rw [decide_eq_decide]
        simp only [List.length_cons]
        omega
      rw [hwarn]

/-- Length of the loop specification: one summary per item of the pages
it consumes (`cap` pages, or all). -/
lemma specLoop_length :
    ∀ (rest : List (List Item)) (hd : Item) (cap : Nat),
    (∀ page ∈ rest, page ≠ []) →
    (specLoop hd rest cap).length = ((rest.take cap).map List.length).sum := by
  intro rest
  induction rest with
  | nil => intro hd cap h; cases cap <;> rfl
  | cons page rest2 ih =>
    intro hd cap h
    cases cap with
    | zero => rfl
    | succ cap2 =>
      cases hpage : page with
      | nil => exact absurd rfl (hpage ▸ h page (by simp))
      | cons p0 ptl =>
        have hrec := ih p0 cap2 (fun p hp => h p (by simp [hp]))
        simp only [specLoop, List.take_succ_cons, List.map_cons, List.sum_cons,
          List.length_append, List.length_map, hrec]
        simp

/-! ## Claim C2 -/

/-- One stored conversation item per page, used by the pagination
fixtures; the conversation id and the message model vary. -/
def convItemP (cid mo : String) : Item :=
  ⟨"u", _compose_conv_id "u" cid,
   [("Title", .S cid), ("CreateTime", .N 2),
    ("MessageMap", .M [("m1", ⟨"user", ⟨"text", "hi"⟩, mo, [], none, 1⟩)]),
    ("LastMessageId", .S "m1"), ("BotId", .NullV)]⟩

/-- Seven store-native pages of one conversation each. -/
def pages7 : List (List Item) :=
  [[convItemP "c0" "m0"], [convItemP "c1" "m1"], [convItemP "c2" "m2"],
   [convItemP "c3" "m3"], [convItemP "c4" "m4"], [convItemP "c5" "m5"],
   [convItemP "c6" "m6"]]

/-- Claim C2 counterexample: on a partition spanning 7 store-native pages
(more than 5), `find_conversation_by_user_id` returns 6 pages' worth of
summaries — not "exactly the first 5 pages' worth", which here would be 5
summaries. -/
theorem C2_counterexample :
    (find_conversation_by_user_id pages7).toOption.map (fun r => (r.1.length, r.2))
      = some (6, true) ∧
    pages7.length = 7 ∧
    ((pages7.take 5).map List.length).sum = 5 := by decide

/-- Claim C2 as amended: for a user whose conversations span more than 6
store-native pages (all well formed), `find_conversation_by_user_id`
stops after 6 queries (the initial query plus 5 loop iterations): it
returns exactly the first 6 pages' worth of summaries, logs the
truncation warning, and does not raise. -/
theorem C2_pagination_cap (pages : List (List Item))
    (h : goodPages pages) (h7 : MAX_QUERY_COUNT + 2 ≤ pages.length) :
    ∃ metas, find_conversation_by_user_id pages = .ok (metas, true) ∧
      metas.length
        = ((pages.take (MAX_QUERY_COUNT + 1)).map List.length).sum := by
  refine ⟨specAll pages, ?_, ?_⟩
  · rw [find_by_user_spec pages h]
    have : decide (MAX_QUERY_COUNT + 1 ≤ pages.length) = true := by
      rw [decide_eq_true_eq]
      omega
    rw [this]
  · cases pages with
    | nil => simp at h7
    | cons page0 rest =>
      cases hp0 : page0 with
      | nil => exact absurd rfl (hp0 ▸ (h page0 (by simp)).1)
      | cons hd tl =>
        have hs : specAll ((hd :: tl) :: rest) =
            (hd :: tl).map mkMetaOwn ++ specLoop hd rest MAX_QUERY_COUNT := rfl
        subst hp0
        rw [hs]
        have hlen := specLoop_length rest hd MAX_QUERY_COUNT
          (fun p hp => (h p (by simp [hp])).1)
        simp only [List.length_append, List.length_map, hlen,
          List.take_succ_cons, List.map_cons, List.sum_cons]
        simp

/-- Witness for C2's amended theorem at the concrete 7-page fixture. -/
theorem C2_witness :
    goodPages pages7 ∧ MAX_QUERY_COUNT + 2 ≤ pages7.length ∧
    ∃ metas, find_conversation_by_user_id pages7 = .ok (metas, true) ∧
      metas.length = ((pages7.take (MAX_QUERY_COUNT + 1)).map List.length).sum :=
  ⟨by decide, by decide, C2_pagination_cap pages7 (by decide) (by decide)⟩

/-! ## Claim C9 -/

/-- Two store-native pages whose conversations use different models. -/
def pagesC9 : List (List Item) :=
  [[convItemP "cA" "alpha"], [convItemP "cB" "beta"]]

/-- Claim C9 counterexample: the summary of conversation `cB`, returned
on the second page, reports model `alpha` — the model carried over from
the first item of the first page — although `cB`'s own message map only
contains model `beta`. -/
theorem C9_counterexample :
    (find_conversation_by_user_id pagesC9).toOption.map
        (fun r => r.1.map fun m => (m.id, m.model))
      = some [("cA", "alpha"), ("cB", "alpha")] ∧
    (mmOf (convItemP "cB" "beta")).map (fun kv => kv.2.model) = ["beta"] ∧
    ¬ ("alpha" ∈ (mmOf (convItemP "cB" "beta")).map fun kv => kv.2.model) := by
  decide

/-- Claim C9 as amended: on well-formed pages the listing returns
`specAll pages`: each first-page summary's model tag is the model of the
last entry of that conversation's own message map (hence a member of it),
while every summary of each later page carries the model of the last map
entry of the *first item of the preceding page* (`mkMeta mo` reports
exactly the supplied tag `mo`), which need not belong to its own map. -/
theorem C9_model_tags (pages : List (List Item)) (h : goodPages pages) :
    find_conversation_by_user_id pages
      = .ok (specAll pages, decide (MAX_QUERY_COUNT + 1 ≤ pages.length)) ∧
    (∀ it : Item, goodItem it = true →
      (mkMetaOwn it).model ∈ (mmOf it).map fun kv => kv.2.model) ∧
    (∀ mo it, (mkMeta mo it).model = mo) := by
  refine ⟨find_by_user_spec pages h, ?_, fun mo it => rfl⟩
  intro it hg
  obtain ⟨m0, ms, hmm⟩ := goodItem_mm it hg
  have hmmOf : mmOf it = m0 :: ms := by
    unfold mmOf
    rw [hmm]
  have hmodel : (mkMetaOwn it).model = lastModel it := rfl
  rw [hmodel, hmmOf]
  unfold lastModel
  rw [hmmOf]
  cases hl : (m0 :: ms).getLast? with
  | none => exact absurd (List.getLast?_eq_none_iff.mp hl) (by simp)
  | some kv =>
    have hkm : kv ∈ m0 :: ms := by
      obtain ⟨ys, hys⟩ := List.getLast?_eq_some_iff.mp hl
      rw [hys]
      simp
    exact List.mem_map_of_mem _ hkm

/-- Witness for C9's amended theorem at the concrete two-page fixture. -/
theorem C9_witness :
    goodPages pagesC9 ∧
    find_conversation_by_user_id pagesC9
      = .ok (specAll pagesC9, decide (MAX_QUERY_COUNT + 1 ≤ pagesC9.length)) ∧
    (convItemP "cA" "alpha") ∈ pagesC9.headD [] ∧
    goodItem (convItemP "cA" "alpha") = true ∧
    (mkMetaOwn (convItemP "cA" "alpha")).model
      ∈ (mmOf (convItemP "cA" "alpha")).map fun kv => kv.2.model :=
  ⟨by decide,
   (C9_model_tags pagesC9 (by decide)).1,
   by decide, by decide,
   (C9_model_tags pagesC9 (by decide)).2.1 (convItemP "cA" "alpha") (by decide)⟩

/-! ## Claim C10 -/

lemma itemMessageMap_cases (it : Item) :
    (∃ m, itemMessageMap it = .ok m) ∨
    itemMessageMap it = .error (.runtimeError "KeyError: MessageMap") := by
  unfold itemMessageMap
  repeat' split
  · exact Or.inl ⟨_, rfl⟩
  · exact Or.inr rfl

lemma popitemModel_cases (m : List (String × MessageModel)) :
    (∃ mo, popitemModel m = .ok mo) ∨
    popitemModel m
      = .error (.runtimeError "KeyError: popitem(): dictionary is empty") := by
  unfold popitemModel
  split
  · exact Or.inl ⟨_, rfl⟩
  · exact Or.inr rfl

lemma metaWithModel_cases (mo : String) (it : Item) :
    (∃ m, metaWithModel mo it = .ok m) ∨
    (∃ msg, metaWithModel mo it = .error (.runtimeError msg)) := by
  unfold metaWithModel
  repeat' split
  all_goals first
    | exact Or.inl ⟨_, rfl⟩
    | exact Or.inr ⟨_, rfl⟩

/-- Every failure of the per-item summary construction is an untyped
runtime error, never a typed storage error. -/
lemma metaOwn_cases (it : Item) :
    (∃ m, metaOwn it = .ok m) ∨
    (∃ msg, metaOwn it = .error (.runtimeError msg)) := by
  unfold metaOwn
  cases itemMessageMap_cases it with
  | inr he =>
    rw [he]
    exact Or.inr ⟨_, rfl⟩
  | inl hok =>
    obtain ⟨m, hm⟩ := hok
    rw [hm, except_bind_ok]
    cases popitemModel_cases m with
    | inr he =>
      rw [he]
      exact Or.inr ⟨_, rfl⟩
    | inl hok2 =>
      obtain ⟨mo, hmo⟩ := hok2
      rw [hmo, except_bind_ok]
      exact metaWithModel_cases mo it

lemma metaList_err (page : List Item) (it : Item) (hmem : it ∈ page)
    (hbad : ∃ msg, metaOwn it = .error (.runtimeError msg)) :
    ∃ msg, metaList metaOwn page = .error (.runtimeError msg) := by
  induction page with
  | nil => cases hmem
  | cons a l ih =>
    cases metaOwn_cases a with
    | inr h =>
      obtain ⟨msg, hm⟩ := h
      refine ⟨msg, ?_⟩
      unfold metaList
      rw [hm]
      rfl
    | inl h =>
      obtain ⟨m, hm⟩ := h
      rcases List.mem_cons.mp hmem with rfl | hmem2
      · obtain ⟨msg, hbadm⟩ := hbad
        rw [hbadm] at hm
        cases hm
      · obtain ⟨msg, hrec⟩ := ih hmem2
        refine ⟨msg, ?_⟩
        unfold metaList
        rw [hm, except_bind_ok, hrec]
        rfl

/-- Claim C10: if any record on the *first* page of
`find_conversation_by_user_id` carries an empty serialized message map,
the operation fails with an untyped runtime error (`dict.popitem()` on an
empty dictionary) instead of returning a summary list or a typed storage
error. -/
theorem C10_empty_map_crash (pages : List (List Item)) (it : Item)
    (hmem : it ∈ pages.headD [])
    (hempty : getA it.attrs "MessageMap" = some (.M [])) :
    ∃ msg, find_conversation_by_user_id pages = .error (.runtimeError msg) := by
  have hbad : metaOwn it
      = .error (.runtimeError "KeyError: popitem(): dictionary is empty") := by
    unfold metaOwn itemMessageMap
    rw [hempty]
    rfl
  obtain ⟨msg, hl⟩ := metaList_err (pages.headD []) it hmem ⟨_, hbad⟩
  refine ⟨msg, ?_⟩
  unfold find_conversation_by_user_id
  show (do
    let ms ← metaList metaOwn (pages.headD [])
    findLoop (pages.headD []) pages.tail 1 ms)
    = Except.error (RepoError.runtimeError msg)
  rw [hl]
  rfl

/-- A stored conversation item with an empty message map. -/
def emptyMapItemW : Item :=
  ⟨"u1", _compose_conv_id "u1" "c9",
   [("Title", .S "t"), ("CreateTime", .N 2), ("MessageMap", .M []),
    ("LastMessageId", .S "m1"), ("BotId", .NullV)]⟩

/-- Witness for C10 at a concrete input. -/
theorem C10_witness :
    emptyMapItemW ∈ ([[emptyMapItemW]] : List (List Item)).headD [] ∧
    getA emptyMapItemW.attrs "MessageMap" = some (.M []) ∧
    ∃ msg, find_conversation_by_user_id [[emptyMapItemW]]
      = .error (.runtimeError msg) :=
  ⟨by decide, by decide,
   C10_empty_map_crash [[emptyMapItemW]] emptyMapItemW (by decide) (by decide)⟩

/-! ## Claim C7 -/

/-- All batches issued by the bulk delete, page by page. -/
def pageBatches (pages : List (List String)) : List (List String) :=
  (pages.map (chunksOf TRANSACTION_BATCH_SIZE)).flatten

/-- Apply a sequence of delete batches in order. -/
def applyBatches (db : DB) (u : String) (bs : List (List String)) : DB :=
  bs.foldl (fun d b => delete_batch d u b) db

lemma chunksOf_nil (n : Nat) : chunksOf n ([] : List String) = [] := by
  rw [chunksOf]

lemma chunksOf_cons (n : Nat) (a : String) (rest : List String) :
    chunksOf n (a :: rest)
      = (a :: rest.take (n - 1)) :: chunksOf n (rest.drop (n - 1)) := by
  rw [chunksOf]

lemma chunksOf_flatten (n : Nat) :
    ∀ (k : Nat) (l : List String), l.length ≤ k → (chunksOf n l).flatten = l := by
  intro k
  induction k with
  | zero =>
    intro l hl
    have hnil : l = [] := List.length_eq_zero.mp (Nat.le_zero.mp hl)
    subst hnil
    rw [chunksOf_nil]
    rfl
  | succ k ih =>
    intro l hl
    cases l with
    | nil =>
      rw [chunksOf_nil]
      rfl
    | cons a rest =>
      rw [chunksOf_cons, List.flatten_cons]
      rw [ih (rest.drop (n - 1))
        (by simp only [List.length_drop]; simp only [List.length_cons] at hl; omega)]
      simp [List.cons_append, List.take_append_drop]

lemma chunksOf_len (n : Nat) (hn : 1 ≤ n) :
    ∀ (k : Nat) (l : List String) (b : List String), l.length ≤ k →
      b ∈ chunksOf n l → b.length ≤ n := by
  intro k
  induction k with
  | zero =>
    intro l b hl hb
    have hnil : l = [] := List.length_eq_zero.mp (Nat.le_zero.mp hl)
    subst hnil
    rw [chunksOf_nil] at hb
    cases hb
  | succ k ih =>
    intro l b hl hb
    cases l with
    | nil =>
      rw [chunksOf_nil] at hb
      cases hb
    | cons a rest =>
      rw [chunksOf_cons] at hb
      rcases List.mem_cons.mp hb with hb1 | hb2
      · subst hb1
        simp only [List.length_cons, List.length_take]
        omega
      · exact ih (rest.drop (n - 1)) b
          (by simp only [List.length_drop]; simp only [List.length_cons] at hl; omega)
          hb2

lemma pageBatches_flatten (pages : List (List String)) :
    (pageBatches pages).flatten = pages.flatten := by
  induction pages with
  | nil => rfl
  | cons page rest ih =>
    unfold pageBatches at ih ⊢
    simp only [List.map_cons, List.flatten_cons, List.flatten_append, ih]
    rw [chunksOf_flatten TRANSACTION_BATCH_SIZE page.length page le_rfl]

lemma applyBatches_flatten (u : String) :
    ∀ (bs : List (List String)) (db : DB),
    applyBatches db u bs = delete_batch db u bs.flatten := by
  intro bs
  induction bs with
  | nil => intro db; rfl
  | cons b rest ih =>
    intro db
    show applyBatches (delete_batch db u b) u rest = delete_batch db u ((b :: rest).flatten)
    rw [ih]
    unfold delete_batch
    rw [List.flatten_cons, List.foldl_append]

lemma mem_removeItem (db : DB) (pk sk : String) (it : Item) :
    it ∈ (removeItem db pk sk).items ↔
      it ∈ db.items ∧ ¬(it.PK = pk ∧ it.SK = sk) := by
  unfold removeItem
  rw [List.mem_filter]
  constructor
  · rintro ⟨hm, hb⟩
    refine ⟨hm, ?_⟩
    rintro ⟨h1, h2⟩
    rw [h1, h2] at hb
    simp at hb
  · rintro ⟨hm, hn⟩
    refine ⟨hm, ?_⟩
    by_cases h1 : it.PK = pk
    · by_cases h2 : it.SK = sk
      · exact absurd ⟨h1, h2⟩ hn
      · simp [h2]
    · simp [h1]

lemma mem_delete_batch (u : String) :
    ∀ (sks : List String) (db : DB) (it : Item),
    it ∈ (delete_batch db u sks).items ↔
      it ∈ db.items ∧ ¬(it.PK = u ∧ it.SK ∈ sks) := by
  intro sks
  induction sks with
  | nil =>
    intro db it
    simp [delete_batch]
  | cons sk rest ih =>
    intro db it
    rw [show delete_batch db u (sk :: rest) = delete_batch (removeItem db u sk) u rest
      from rfl]
    rw [ih, mem_removeItem]
    constructor
    · rintro ⟨⟨hm, hn1⟩, hn2⟩
      refine ⟨hm, ?_⟩
      rintro ⟨hp, hs⟩
      rcases List.mem_cons.mp hs with hs1 | hs2
      · exact hn1 ⟨hp, hs1⟩
      · exact hn2 ⟨hp, hs2⟩
    · rintro ⟨hm, hno⟩
      refine ⟨⟨hm, ?_⟩, ?_⟩
      · rintro ⟨hp, hs⟩
        exact hno ⟨hp, List.mem_cons.mpr (Or.inl hs)⟩
      · rintro ⟨hp, hs⟩
        exact hno ⟨hp, List.mem_cons.mpr (Or.inr hs)⟩

lemma runBatches_none (u : String) :
    ∀ (bs : List (List String)) (db : DB) (k : Nat),
    runBatches u db bs k none = (applyBatches db u bs, k + bs.length, false) := by
  intro bs
  induction bs with
  | nil => intro db k; rfl
  | cons b rest ih =>
    intro db k
    show runBatches u (delete_batch db u b) rest (k + 1) none = _
    rw [ih]
    have hlen : (k + 1) + rest.length = k + (b :: rest).length := by
      simp only [List.length_cons]
      omega
    rw [hlen]
    rfl

lemma runBatches_cons (u : String) (db : DB) (b : List String)
    (rest : List (List String)) (k : Nat) (fault : Option Nat) :
    runBatches u db (b :: rest) k fault =
      if fault = some k then (db, k, true)
      else runBatches u (delete_batch db u b) rest (k + 1) fault := rfl

lemma runBatches_fault (u : String) :
    ∀ (bs : List (List String)) (db : DB) (k n : Nat),
    runBatches u db bs k (some n) =
      if k ≤ n ∧ n < k + bs.length then
        (applyBatches db u (bs.take (n - k)), n, true)
      else (applyBatches db u bs, k + bs.length, false) := by
  intro bs
  induction bs with
  | nil =>
    intro db k n
    rw [if_neg (by simp only [List.length_nil, Nat.add_zero]; omega)]
    rfl
  | cons b rest ih =>
    intro db k n
    rw [runBatches_cons]
    by_cases hk : n = k
    · subst hk
      rw [if_pos rfl]
      rw [if_pos (by simp only [List.length_cons]; omega)]
      have ht : (b :: rest).take (n - n) = [] := by simp
      rw [ht]
      rfl
    · rw [if_neg (by simp [hk])]
      rw [ih]
      by_cases h2 : k + 1 ≤ n ∧ n < (k + 1) + rest.length
      · rw [if_pos h2]
        rw [if_pos (by simp only [List.length_cons]; omega)]
        have htake : (b :: rest).take (n - k) = b :: rest.take (n - (k + 1)) := by
          have hnk : n - k = (n - (k + 1)) + 1 := by omega
          rw [hnk]
          rfl
        rw [htake]
        rfl
      · rw [if_neg h2]
        rw [if_neg (by simp only [List.length_cons]; omega)]
        have hlen : (k + 1) + rest.length = k + (b :: rest).length := by
          simp only [List.length_cons]
          omega
        rw [hlen]
        rfl

lemma deletePagesLoop_none (u : String) :
    ∀ (pages : List (List String)) (db : DB) (k : Nat),
    deletePagesLoop u db pages k none
      = (applyBatches db u (pageBatches pages), false) := by
  intro pages
  induction pages with
  | nil => intro db k; rfl
  | cons page rest ih =>
    intro db k
    show (match runBatches u db (chunksOf TRANSACTION_BATCH_SIZE page) k none with
      | (db', k', false) => deletePagesLoop u db' rest k' none
      | (db', _, true) => (db', true)) = _
    rw [runBatches_none]
    show deletePagesLoop u (applyBatches db u (chunksOf TRANSACTION_BATCH_SIZE page))
      rest (k + (chunksOf TRANSACTION_BATCH_SIZE page).length) none = _
    rw [ih]
    unfold pageBatches
    rw [List.map_cons, List.flatten_cons]
    unfold applyBatches
    rw [List.foldl_append]

lemma deletePagesLoop_fault (u : String) :
    ∀ (pages : List (List String)) (db : DB) (k n : Nat),
    deletePagesLoop u db pages k (some n) =
      if k ≤ n ∧ n < k + (pageBatches pages).length then
        (applyBatches db u ((pageBatches pages).take (n - k)), true)
      else (applyBatches db u (pageBatches pages), false) := by
  intro pages
  induction pages with
  | nil =>
    intro db k n
    rw [if_neg (by simp only [pageBatches, List.map_nil, List.flatten_nil,
      List.length_nil, Nat.add_zero]; omega)]
    rfl
  | cons page rest ih =>
    intro db k n
    have hpb : pageBatches (page :: rest)
        = chunksOf TRANSACTION_BATCH_SIZE page ++ pageBatches rest := by
      unfold pageBatches
      rw [List.map_cons, List.flatten_cons]
    show (match runBatches u db (chunksOf TRANSACTION_BATCH_SIZE page) k (some n) with
      | (db', k', false) => deletePagesLoop u db' rest k' (some n)
      | (db', _, true) => (db', true)) = _
    rw [runBatches_fault]
    by_cases h1 : k ≤ n ∧ n < k + (chunksOf TRANSACTION_BATCH_SIZE page).length
    · rw [if_pos h1]
      rw [if_pos (by rw [hpb]; simp only [List.length_append]; omega)]
      show (applyBatches db u ((chunksOf TRANSACTION_BATCH_SIZE page).take (n - k)), true) = _
      rw [hpb]
      rw [List.take_append_of_le_length (by omega)]
    · rw [if_neg h1]
      show deletePagesLoop u (applyBatches db u (chunksOf TRANSACTION_BATCH_SIZE page))
        rest (k + (chunksOf TRANSACTION_BATCH_SIZE page).length) (some n) = _
      rw [ih]
      by_cases h2 : k + (chunksOf TRANSACTION_BATCH_SIZE page).length ≤ n ∧
          n < k + (chunksOf TRANSACTION_BATCH_SIZE page).length + (pageBatches rest).length
      · rw [if_pos h2]
        rw [if_pos (by rw [hpb]; simp only [List.length_append]; omega)]
        rw [hpb]
        have htake : (chunksOf TRANSACTION_BATCH_SIZE page ++ pageBatches rest).take (n - k)
            = chunksOf TRANSACTION_BATCH_SIZE page ++
              (pageBatches rest).take (n - (k + (chunksOf TRANSACTION_BATCH_SIZE page).length)) := by
          have hnk : n - k = (chunksOf TRANSACTION_BATCH_SIZE page).length +
              (n - (k + (chunksOf TRANSACTION_BATCH_SIZE page).length)) := by omega
          rw [hnk, List.take_append]
        rw [htake]
        unfold applyBatches
        rw [List.foldl_append]
      · rw [if_neg h2]
        rw [if_neg (by rw [hpb]; simp only [List.length_append]; omega)]
        rw [hpb]
        unfold applyBatches
        rw [List.foldl_append]

/-- Claim C7: `delete_conversation_by_user_id` never raises a storage
error: without a fault it paginates through *all* pages (no page cap) and
afterwards the user's conversation query is empty; every issued batch is
bounded by `TRANSACTION_BATCH_SIZE`; and when a batch write raises a
`ClientError`, the error is logged (flag `true`) and the operation stops:
exactly the batches before the fault are applied — already-deleted
batches stay deleted, the remaining conversations stay undeleted. -/
theorem C7_bulk_delete (db : DB) (u : String) (pages : List (List String)) (n : Nat) :
    (pages.flatten = (queryConvItems db u).map (fun it => it.SK) →
      delete_conversation_by_user_id db u pages none
        = (applyBatches db u (pageBatches pages), false) ∧
      queryConvItems (delete_conversation_by_user_id db u pages none).1 u = []) ∧
    (∀ b ∈ pageBatches pages, b.length ≤ TRANSACTION_BATCH_SIZE) ∧
    (n < (pageBatches pages).length →
      delete_conversation_by_user_id db u pages (some n)
        = (applyBatches db u ((pageBatches pages).take n), true)) := by
  refine ⟨?_, ?_, ?_⟩
  · intro hq
    have h1 : delete_conversation_by_user_id db u pages none
        = (applyBatches db u (pageBatches pages), false) :=
      deletePagesLoop_none u pages db 0
    refine ⟨h1, ?_⟩
    rw [h1]
    have h2 : applyBatches db u (pageBatches pages)
        = delete_batch db u pages.flatten := by
      rw [applyBatches_flatten, pageBatches_flatten]
    show queryConvItems (applyBatches db u (pageBatches pages)) u = []
    rw [h2]
    unfold queryConvItems
    rw [List.filter_eq_nil_iff]
    intro it hit hp
    rw [mem_delete_batch] at hit
    obtain ⟨hmem, hno⟩ := hit
    have hpk : it.PK = u := beq_iff_eq.mp ((Bool.and_eq_true _ _).mp hp).1
    have hinq : it ∈ queryConvItems db u := by
      unfold queryConvItems
      rw [List.mem_filter]
      exact ⟨hmem, hp⟩
    have hskmem : it.SK ∈ pages.flatten := by
      rw [hq]
      exact List.mem_map_of_mem _ hinq
    exact hno ⟨hpk, hskmem⟩
  · intro b hb
    unfold pageBatches at hb
    rw [List.mem_flatten] at hb
    obtain ⟨l, hl, hbl⟩ := hb
    rw [List.mem_map] at hl
    obtain ⟨page, _, hpage⟩ := hl
    subst hpage
    exact chunksOf_len TRANSACTION_BATCH_SIZE (by simp [TRANSACTION_BATCH_SIZE])
      page.length page b le_rfl hbl
  · intro hn
    have hfault := deletePagesLoop_fault u pages db 0 n
    rw [if_pos (by omega)] at hfault
    simpa using hfault

/-- A two-conversation table for user `u`. -/
def dbD : DB := ⟨[convItemP "c0" "m0", convItemP "c1" "m1"]⟩

/-- The key-only pages of `dbD`'s conversation query. -/
def pagesD : List (List String) :=
  [[_compose_conv_id "u" "c0"], [_compose_conv_id "u" "c1"]]

lemma chunksOf_singleton (n : Nat) (a : String) : chunksOf n [a] = [[a]] := by
  rw [chunksOf_cons, List.take_nil, List.drop_nil, chunksOf_nil]

lemma pagesD_batches : pageBatches pagesD = pagesD := by
  unfold pageBatches pagesD
  rw [List.map_cons, List.map_cons, List.map_nil,
    chunksOf_singleton, chunksOf_singleton]
  rfl

/-- Witness for C7 at a concrete input: full deletion without fault, and
stop-after-zero-batches with a fault at the first batch write. -/
theorem C7_witness :
    (pagesD.flatten = (queryConvItems dbD "u").map fun it => it.SK) ∧
    queryConvItems (delete_conversation_by_user_id dbD "u" pagesD none).1 "u" = [] ∧
    (∀ b ∈ pageBatches pagesD, b.length ≤ TRANSACTION_BATCH_SIZE) ∧
    0 < (pageBatches pagesD).length ∧
    delete_conversation_by_user_id dbD "u" pagesD (some 0)
      = (applyBatches dbD "u" ((pageBatches pagesD).take 0), true) :=
  ⟨by decide,
   ((C7_bulk_delete dbD "u" pagesD 0).1 (by decide)).2,
   (C7_bulk_delete dbD "u" pagesD 0).2.1,
   by rw [pagesD_batches]; decide,
   (C7_bulk_delete dbD "u" pagesD 0).2.2 (by rw [pagesD_batches]; decide)⟩

/-! ## Claim C8 -/

/-- A conversation record owned by user `x#CONV#y` (its conversation id is
`z`); its composed sort key collides with the key user `x` composes for
conversation id `y#CONV#z`. -/
def foreignItem : Item :=
  ⟨"x#CONV#y", _compose_conv_id "x#CONV#y" "z",
   [("Title", .S "bobs secret"), ("CreateTime", .N 5),
    ("MessageMap", .M [("m1", msgW)]), ("LastMessageId", .S "m1"),
    ("BotId", .NullV)]⟩

/-- A table holding only `foreignItem`. -/
def dbX : DB := ⟨[foreignItem]⟩

/-- What user `x`'s lookup returns from `dbX`. -/
def leakedConv : ConversationModel :=
  ⟨"y#CONV#z", "bobs secret", 5, [("m1", msgW)], "m1", none⟩

instance exceptDecEq {e a : Type} [DecidableEq e] [DecidableEq a] :
    DecidableEq (Except e a) := fun x y =>
  match x, y with
  | .ok v, .ok w =>
    if h : v = w then isTrue (by rw [h])
    else isFalse (by intro hh; cases hh; exact h rfl)
  | .ok _, .error _ => isFalse (by intro hh; cases hh)
  | .error _, .ok _ => isFalse (by intro hh; cases hh)
  | .error v, .error w =>
    if h : v = w then isTrue (by rw [h])
    else isFalse (by intro hh; cases hh; exact h rfl)

/-- Claim C8 counterexample: every record of `dbX` is owned by user
`x#CONV#y`, yet `find_conversation_by_id` invoked with the *distinct* user
id `x` returns that record's full content — the SK-only index lookup
crossed the partition boundary because the composed keys collide. -/
theorem C8_counterexample :
    (∀ it ∈ dbX.items, it.PK = "x#CONV#y") ∧
    ("x" : String) ≠ "x#CONV#y" ∧
    _compose_conv_id "x" "y#CONV#z" = _compose_conv_id "x#CONV#y" "z" ∧
    find_conversation_by_id dbX "x" "y#CONV#z" = .ok leakedConv ∧
    leakedConv.title = "bobs secret" := by decide

/-- `s` contains no `#` character. -/
def hashFree (s : String) : Bool :=
  s.data.all fun c => !(c == '#')

/-- Every item's key is well composed: the partition key is `#`-free and
the sort key is the composed conversation or bot key of its own owner. -/
def wellKeyed (db : DB) : Prop :=
  ∀ it ∈ db.items, hashFree it.PK = true ∧
    ((∃ c, it.SK = _compose_conv_id it.PK c) ∨
     (∃ b, it.SK = _compose_bot_id it.PK b))

lemma hashfree_append_inj :
    ∀ (a b xs ys : List Char), (∀ c ∈ a, ¬ c = '#') → (∀ c ∈ b, ¬ c = '#') →
    a ++ '#' :: xs = b ++ '#' :: ys → a = b ∧ xs = ys := by
  intro a
  induction a with
  | nil =>
    intro b xs ys _ hb h
    cases b with
    | nil =>
      refine ⟨rfl, ?_⟩
      simpa using h
    | cons d b2 =>
      rw [List.nil_append, List.cons_append] at h
      have hd := List.cons.injEq '#' xs d (b2 ++ '#' :: ys) ▸ h
      rw [List.cons.injEq] at h
      exact absurd h.1.symm (hb d (by simp))
  | cons c a2 ih =>
    intro b xs ys ha hb h
    cases b with
    | nil =>
      rw [List.cons_append, List.nil_append] at h
      rw [List.cons.injEq] at h
      exact absurd h.1 (ha c (by simp))
    | cons d b2 =>
      rw [List.cons_append, List.cons_append] at h
      rw [List.cons.injEq] at h
      obtain ⟨h1, h2⟩ := h
      obtain ⟨hab, hxy⟩ := ih b2 xs ys
        (fun x hx => ha x (by simp [hx]))
        (fun x hx => hb x (by simp [hx])) h2
      exact ⟨by rw [h1, hab], hxy⟩

lemma hashFree_chars (s : String) (h : hashFree s = true) :
    ∀ c ∈ s.data, ¬ c = '#' := by
  unfold hashFree at h
  rw [List.all_eq_true] at h
  intro c hc
  have := h c hc
  simpa using this

lemma compose_conv_inj (u1 c1 u2 c2 : String)
    (h1 : hashFree u1 = true) (h2 : hashFree u2 = true)
    (h : _compose_conv_id u1 c1 = _compose_conv_id u2 c2) :
    u1 = u2 ∧ c1 = c2 := by
  have hdat := congrArg String.data h
  simp only [_compose_conv_id, String.data_append, List.append_assoc,
    List.cons_append, List.nil_append] at hdat
  obtain ⟨hu, htail⟩ := hashfree_append_inj u1.data u2.data _ _
    (hashFree_chars u1 h1) (hashFree_chars u2 h2)
    (by
      have hc : ("#CONV#" : String).data = ['#', 'C', 'O', 'N', 'V', '#'] := rfl
      simpa [hc] using hdat)
  refine ⟨String.ext hu, String.ext ?_⟩
  simpa using htail

lemma compose_conv_ne_bot_hashfree (u1 c1 u2 b2 : String)
    (h1 : hashFree u1 = true) (h2 : hashFree u2 = true) :
    _compose_conv_id u1 c1 ≠ _compose_bot_id u2 b2 := by
  intro h
  have hdat := congrArg String.data h
  simp only [_compose_conv_id, _compose_bot_id, String.data_append,
    List.append_assoc, List.cons_append, List.nil_append] at hdat
  obtain ⟨_, htail⟩ := hashfree_append_inj u1.data u2.data _ _
    (hashFree_chars u1 h1) (hashFree_chars u2 h2) (by simpa using hdat)
  simp at htail

/-- All records of one partition (owner `p`). -/
def itemsOfUser (db : DB) (p : String) : List Item :=
  db.items.filter fun it => it.PK == p

lemma filter_filter_of_imp (p q : Item → Bool) (l : List Item)
    (h : ∀ j, p j = true → q j = true) :
    (l.filter q).filter p = l.filter p := by
  induction l with
  | nil => rfl
  | cons a l ih =>
    by_cases hq : q a = true
    · rw [List.filter_cons, if_pos hq, List.filter_cons, List.filter_cons, ih]
    · have hp : ¬ p a = true := fun hpa => hq (h a hpa)
      rw [List.filter_cons, if_neg hq, ih, List.filter_cons, if_neg hp]

lemma itemsOfUser_putItem (db : DB) (it : Item) (B : String) (hne : it.PK ≠ B) :
    itemsOfUser (putItem db it) B = itemsOfUser db B := by
  unfold itemsOfUser putItem
  rw [List.filter_cons, if_neg (by simp [hne])]
  apply filter_filter_of_imp
  intro j hj
  have hB : j.PK = B := beq_iff_eq.mp hj
  have : (j.PK == it.PK) = false := by
    rw [hB]
    exact beq_false_of_ne fun hh => hne hh.symm
  simp [this]

lemma itemsOfUser_updateAttrAt (db : DB) (pk sk n : String) (v : AttrVal)
    (B : String) (hne : pk ≠ B) :
    itemsOfUser (updateAttrAt db pk sk n v) B = itemsOfUser db B := by
  unfold updateAttrAt
  by_cases hex : (getItem db pk sk).isSome
  · rw [if_pos hex]
    unfold itemsOfUser
    apply filter_map_invariant
    · intro j
      by_cases hc : (j.PK == pk && j.SK == sk) = true
      · rw [if_pos hc, setAttr_PK]
      · rw [if_neg hc]
    · intro j hj
      have hB : j.PK = B := beq_iff_eq.mp hj
      have : (j.PK == pk) = false := by
        rw [hB]
        exact beq_false_of_ne fun hh => hne hh.symm
      simp [this]
  · rw [if_neg hex]
    unfold itemsOfUser
    rw [List.filter_cons, if_neg (by simp [hne])]

lemma itemsOfUser_removeItem (db : DB) (pk sk : String) (B : String)
    (hne : pk ≠ B) :
    itemsOfUser (removeItem db pk sk) B = itemsOfUser db B := by
  unfold itemsOfUser removeItem
  apply filter_filter_of_imp
  intro j hj
  have hB : j.PK = B := beq_iff_eq.mp hj
  have : (j.PK == pk) = false := by
    rw [hB]
    exact beq_false_of_ne fun hh => hne hh.symm
  simp [this]

lemma itemsOfUser_delete_batch (u B : String) (hne : u ≠ B) :
    ∀ (sks : List String) (db : DB),
    itemsOfUser (delete_batch db u sks) B = itemsOfUser db B := by
  intro sks
  induction sks with
  | nil => intro db; rfl
  | cons sk rest ih =>
    intro db
    show itemsOfUser (delete_batch (removeItem db u sk) u rest) B = _
    rw [ih, itemsOfUser_removeItem db u sk B hne]

lemma itemsOfUser_applyBatches (u B : String) (hne : u ≠ B)
    (bs : List (List String)) (db : DB) :
    itemsOfUser (applyBatches db u bs) B = itemsOfUser db B := by
  rw [applyBatches_flatten]
  exact itemsOfUser_delete_batch u B hne bs.flatten db

/-- Claim C8 as amended: operations keyed by the partition key touch only
partition `A` — the prefix query only returns `A`-owned records and every
mutating operation leaves all other users' partitions untouched; the
SK-only index lookup additionally stays inside partition `A` *provided*
the querying user id is `#`-free and every stored key is well composed
from a `#`-free owner id.  (Without that proviso the lookup can cross
partitions, as the counterexample shows.) -/
theorem C8_partition_isolation (db : DB) (A B cid nt : String)
    (c : ConversationModel) (now : Rat) (pages : List (List String))
    (fault : Option Nat) (hBA : A ≠ B) :
    (∀ it ∈ queryConvItems db A, it.PK = A) ∧
    (hashFree A = true → wellKeyed db →
      ∀ it ∈ skIndexQuery db (_compose_conv_id A cid), it.PK = A) ∧
    itemsOfUser (store_conversation db A c now false).1 B = itemsOfUser db B ∧
    itemsOfUser (delete_conversation_by_id db A cid none).1 B = itemsOfUser db B ∧
    itemsOfUser (change_conversation_title db A cid nt none).1 B = itemsOfUser db B ∧
    itemsOfUser (delete_conversation_by_user_id db A pages fault).1 B
      = itemsOfUser db B := by
  refine ⟨?_, ?_, ?_, ?_, ?_, ?_⟩
  · intro it hit
    unfold queryConvItems at hit
    rw [List.mem_filter] at hit
    exact beq_iff_eq.mp ((Bool.and_eq_true _ _).mp hit.2).1
  · intro hA hwk it hit
    unfold skIndexQuery at hit
    rw [List.mem_filter] at hit
    obtain ⟨hmem, hsk⟩ := hit
    have hskeq : it.SK = _compose_conv_id A cid := beq_iff_eq.mp hsk
    obtain ⟨hfree, hcase⟩ := hwk it hmem
    rcases hcase with ⟨c2, hc2⟩ | ⟨b2, hb2⟩
    · have := compose_conv_inj A cid it.PK c2 hA hfree (by rw [← hskeq, hc2])
      exact this.1.symm
    · exact absurd (hskeq ▸ hb2.symm).symm
        (compose_conv_ne_bot_hashfree A cid it.PK b2 hA hfree)
  · cases hb : c.bot_id with
    | none =>
      have hdb : (store_conversation db A c now false).1 = putItem db (conv_item A c) := by
        simp [store_conversation, transact_write_items, store_transact_items, hb,
          applyTransactItem]
      rw [hdb]
      exact itemsOfUser_putItem db (conv_item A c) B hBA
    | some b =>
      have hdb : (store_conversation db A c now false).1 =
          updateAttrAt (putItem db (conv_item A c)) A (_compose_bot_id A b)
            "LastBotUsed" (.N now) := by
        simp [store_conversation, transact_write_items, store_transact_items, hb,
          applyTransactItem]
      rw [hdb, itemsOfUser_updateAttrAt _ _ _ _ _ _ hBA]
      exact itemsOfUser_putItem db (conv_item A c) B hBA
  · unfold delete_conversation_by_id delete_item_cond
    by_cases hex : (getItem db A (_compose_conv_id A cid)).isSome
    · simp only [hex, if_pos]
      exact itemsOfUser_removeItem db A (_compose_conv_id A cid) B hBA
    · simp only [hex, Bool.false_eq_true, if_neg, not_false_iff]
  · unfold change_conversation_title update_item_title
    by_cases hex : (getItem db A (_compose_conv_id A cid)).isSome
    · simp only [hex, if_pos]
      unfold itemsOfUser
      apply filter_map_invariant
      · intro j
        by_cases hc : (j.PK == A && j.SK == _compose_conv_id A cid) = true
        · rw [if_pos hc, setAttr_PK]
        · rw [if_neg hc]
      · intro j hj
        have hB : j.PK = B := beq_iff_eq.mp hj
        have : (j.PK == A) = false := by
          rw [hB]
          exact beq_false_of_ne fun hh => hBA hh.symm
        simp [this]
    · simp only [hex, Bool.false_eq_true, if_neg, not_false_iff]
  · cases fault with
    | none =>
      rw [show delete_conversation_by_user_id db A pages none
        = (applyBatches db A (pageBatches pages), false) from deletePagesLoop_none A pages db 0]
      exact itemsOfUser_applyBatches A B hBA (pageBatches pages) db
    | some n =>
      rw [show delete_conversation_by_user_id db A pages (some n)
        = _ from deletePagesLoop_fault A pages db 0 n]
      by_cases hcond : 0 ≤ n ∧ n < 0 + (pageBatches pages).length
      · rw [if_pos hcond]
        exact itemsOfUser_applyBatches A B hBA ((pageBatches pages).take (n - 0)) db
      · rw [if_neg hcond]
        exact itemsOfUser_applyBatches A B hBA (pageBatches pages) db

/-- A one-record table owned by `bob`, well keyed. -/
def dbBob : DB := ⟨[⟨"bob", _compose_conv_id "bob" "c1",
  [("Title", .S "t"), ("CreateTime", .N 1),
   ("MessageMap", .M [("m1", msgW)]), ("LastMessageId", .S "m1"),
   ("BotId", .NullV)]⟩]⟩

lemma dbBob_wellKeyed : wellKeyed dbBob := by
  intro it hit
  rcases List.mem_cons.mp hit with hh | hh
  · subst hh
    exact ⟨by decide, Or.inl ⟨"c1", rfl⟩⟩
  · cases hh

/-- Witness for C8's amended theorem at a concrete input: user `alice`'s
operations against `bob`'s table. -/
theorem C8_witness :
    ("alice" : String) ≠ "bob" ∧ hashFree "alice" = true ∧ wellKeyed dbBob ∧
    (∀ it ∈ queryConvItems dbBob "alice", it.PK = "alice") ∧
    (∀ it ∈ skIndexQuery dbBob (_compose_conv_id "alice" "c1"), it.PK = "alice") ∧
    itemsOfUser (store_conversation dbBob "alice" convW 9 false).1 "bob"
      = itemsOfUser dbBob "bob" ∧
    itemsOfUser (delete_conversation_by_user_id dbBob "alice"
        [[_compose_conv_id "alice" "c1"]] none).1 "bob"
      = itemsOfUser dbBob "bob" :=
  ⟨by decide, by decide, dbBob_wellKeyed,
   (C8_partition_isolation dbBob "alice" "bob" "c1" "t2" convW 9
     [[_compose_conv_id "alice" "c1"]] none (by decide)).1,
   (C8_partition_isolation dbBob "alice" "bob" "c1" "t2" convW 9
     [[_compose_conv_id "alice" "c1"]] none (by decide)).2.1 (by decide)
     dbBob_wellKeyed,
   (C8_partition_isolation dbBob "alice" "bob" "c1" "t2" convW 9
     [[_compose_conv_id "alice" "c1"]] none (by decide)).2.2.1,
   (C8_partition_isolation dbBob "alice" "bob" "c1" "t2" convW 9
     [[_compose_conv_id "alice" "c1"]] none (by decide)).2.2.2.2.2⟩
